import Mathlib

/-!
# Verification of the `msc` mod-manifest engine

Shallow embedding of `src/msc/mods.py` (data model, reconciliation engine
and manifest operations).  Python dataclasses / pydantic models become Lean
structures; the filesystem is an explicit state record threaded through the
operations; fallible code returns `Except String`.  Python string truthiness
(`None` and `""` are falsy) is modelled by `strTruthy`.
-/

deriving instance DecidableEq for Except

namespace Msc

/-- Python truthiness of an `Optional[str]`: `None` and `""` are falsy. -/
def strTruthy : Option String → Bool
  | none => false
  | some s => !s.isEmpty

/-- Python `a or b` on `Optional[str]` values. -/
def pyOr (a b : Option String) : Option String :=
  if strTruthy a then a else b

/-- Python `a or b` where the fallback `b` is a plain `str`. -/
def pyOrS (a : Option String) (b : String) : String :=
  if strTruthy a then a.getD "" else b

/-- Python `str.lower()` (ASCII case mapping), character by character. -/
def strLower (s : String) : String := String.mk (s.toList.map Char.toLower)

/-- Python `str.startswith(p)`. -/
def strStartsWith (s p : String) : Bool := p.toList.isPrefixOf s.toList

/-- Python `str.strip()`: whitespace removed from both ends. -/
def strTrim (s : String) : String :=
  String.mk (((s.toList.dropWhile Char.isWhitespace).reverse.dropWhile
    Char.isWhitespace).reverse)

/-- Index of the last occurrence of `c` in `cs` (Python `str.rfind`). -/
def rfindIdx (cs : List Char) (c : Char) : Option Nat :=
  match cs.reverse.findIdx? (fun d => d == c) with
  | none => none
  | some i => some (cs.length - 1 - i)

/-- `pathlib.PurePath.suffix` of a bare file name: the part from the last dot,
provided that dot is neither the first nor the last character. -/
def pathSuffix (name : String) : String :=
  let cs := name.toList
  match rfindIdx cs '.' with
  | none => ""
  | some i => if 0 < i ∧ i < cs.length - 1 then String.mk (cs.drop i) else ""

/-- `pathlib.PurePath.stem` of a bare file name. -/
def pathStem (name : String) : String :=
  let cs := name.toList
  match rfindIdx cs '.' with
  | none => name
  | some i => if 0 < i ∧ i < cs.length - 1 then String.mk (cs.take i) else name

/-- Replace every non-alphanumeric character (ASCII classes of the regex
`[^a-zA-Z0-9]`) by `'-'`. -/
def subNonAlnum (cs : List Char) : List Char :=
  cs.map (fun c => if c.isAlphanum then c else '-')

/-- Collapse consecutive `'-'` characters to a single one, so that
`subNonAlnum` followed by `collapseDashes` models `re.sub(r"[^a-zA-Z0-9]+", "-", s)`. -/
def collapseDashes : List Char → List Char
  | [] => []
  | [c] => [c]
  | a :: b :: rest =>
    if a == '-' && b == '-' then collapseDashes (b :: rest)
    else a :: collapseDashes (b :: rest)

/-- Python `str.strip("-")`. -/
def stripDashes (cs : List Char) : List Char :=
  ((cs.dropWhile (fun c => c == '-')).reverse.dropWhile (fun c => c == '-')).reverse

/-- `_derive_mod_id`: slug of the filename stem — non-alphanumeric runs become a
single hyphen, the ends are stripped of hyphens, the result is lower-cased and
an empty result falls back to `"mod"`. -/
def «_derive_mod_id» (filename : String) : String :=
  let stem := pathStem filename
  let slug := String.mk ((stripDashes (collapseDashes (subNonAlnum stem.toList))).map Char.toLower)
  if slug.isEmpty then "mod" else slug

/-- Python `str.title()` restricted to ASCII letters: a letter following a
non-letter is upper-cased, a letter following a letter is lower-cased. -/
def titleChars : List Char → Bool → List Char
  | [], _ => []
  | c :: cs, prevAlpha =>
    (if c.isAlpha then (if prevAlpha then c.toLower else c.toUpper) else c)
      :: titleChars cs c.isAlpha

/-- `_humanize_name`: hyphens and underscores become spaces, then title-case. -/
def «_humanize_name» (mod_id : String) : String :=
  let spaced := mod_id.toList.map (fun c => if c == '-' || c == '_' then ' ' else c)
  String.mk (titleChars spaced false)

/-- Drop everything up to and including the first occurrence of `c`
(Python `s.split(c, 1)[1]`, defined when `c` occurs). -/
def dropThroughFirst : List Char → Char → List Char
  | [], _ => []
  | x :: xs, c => if x == c then xs else dropThroughFirst xs c

/-! ## Constants (`mods.py` module header) -/

def MANIFEST_FILENAME : String := ".mscmods.json"
def DEFAULT_MODS_DIR : String := "mods"
def DEFAULT_DISABLED_DIR_SUFFIX : String := "-disabled"
def SUPPORTED_SCHEMA_VERSION : Nat := 1

/-! ## Data model -/

/-- The fields of `MscConfig` (from `config.py`) that `mods.py` reads.
`server_type` and `minecraft_version` are plain strings there. -/
structure MscConfig where
  data_dir : String
  server_type : String
  minecraft_version : String
  api_user_agent : String
  curseforge_api_key : Option String := none
deriving DecidableEq

structure ModHashes where
  sha256 : Option String := none
  sha512 : Option String := none
  sha1 : Option String := none
  md5 : Option String := none
deriving DecidableEq

structure ModSource where
  type : String := "local"
  path : Option String := none
  url : Option String := none
  project_id : Option String := none
  version_id : Option String := none
  slug : Option String := none
  download_url : Option String := none
  notes : Option String := none
deriving DecidableEq

structure ModEntry where
  id : String
  name : Option String := none
  side : String := "server"
  enabled : Bool := true
  filename : String
  source : ModSource := {}
  version : Option String := none
  mc_version : Option String := none
  loader : Option String := none
  installed_at : Option String := none
  hashes : Option ModHashes := none
  notes : Option String := none
deriving DecidableEq

structure ModManifest where
  schema_version : Nat := SUPPORTED_SCHEMA_VERSION
  loader : Option String := none
  minecraft_version : Option String := none
  mods_dir : String := DEFAULT_MODS_DIR
  mods : List ModEntry := []
deriving DecidableEq

/-- `ModManifest.find`: first entry with the given id, else `ManifestError`. -/
def ModManifest.find (m : ModManifest) (mod_id : String) : Except String ModEntry :=
  match m.mods.find? (fun mod => mod.id == mod_id) with
  | some mod => .ok mod
  | none => .error ("Mod '" ++ mod_id ++ "' not found in manifest")

/-- `ModManifest.add`: appends, failing on a duplicate id. -/
def ModManifest.add (m : ModManifest) (entry : ModEntry) : Except String ModManifest :=
  if m.mods.any (fun mod => mod.id == entry.id) then
    .error ("Mod '" ++ entry.id ++ "' already exists in manifest")
  else
    .ok { m with mods := m.mods ++ [entry] }

/-- `ModManifest.remove`: drops every entry with the id, failing when the
length did not shrink. -/
def ModManifest.remove (m : ModManifest) (mod_id : String) : Except String ModManifest :=
  let rest := m.mods.filter (fun mod => mod.id != mod_id)
  if rest.length == m.mods.length then
    .error ("Mod '" ++ mod_id ++ "' not found in manifest")
  else
    .ok { m with mods := rest }

/-! ## Filesystem model

The two mod directories, the manifest file, and a write counter for the
manifest file (`save_manifest` bumps it, so "the manifest file was not
rewritten" is observable).  A directory that does not exist is `none`;
`ensure_directories` turns it into `some []`.  File content is abstracted by
its sha256 fingerprint (`_sha256` reads the stored field). -/

structure FSFile where
  name : String
  sha256 : String
deriving DecidableEq

structure FS where
  enabledDir : Option (List FSFile) := none
  disabledDir : Option (List FSFile) := none
  manifestFile : Option ModManifest := none
  manifestWrites : Nat := 0
deriving DecidableEq

/-! ## Directory layout and manifest store -/

def joinPath (a b : String) : String := a ++ "/" ++ b

/-- `manifest_path(cfg)`: note the source uses the fixed `DEFAULT_MODS_DIR`,
not the manifest's `mods_dir`. -/
def manifest_path (cfg : MscConfig) : String :=
  joinPath (joinPath cfg.data_dir DEFAULT_MODS_DIR) MANIFEST_FILENAME

/-- `mods_dir(cfg, manifest)`. -/
def mods_dir_path (cfg : MscConfig) (manifest : Option ModManifest) : String :=
  joinPath cfg.data_dir (match manifest with
    | some m => m.mods_dir
    | none => DEFAULT_MODS_DIR)

/-- `disabled_dir(cfg, manifest)`. -/
def disabled_dir_path (cfg : MscConfig) (manifest : Option ModManifest) : String :=
  joinPath cfg.data_dir ((match manifest with
    | some m => m.mods_dir
    | none => DEFAULT_MODS_DIR) ++ DEFAULT_DISABLED_DIR_SUFFIX)

/-- `ensure_directories`: `mkdir(parents=True, exist_ok=True)` on both
directories. -/
def ensure_directories (fs : FS) : FS :=
  { fs with enabledDir := some (fs.enabledDir.getD [])
            disabledDir := some (fs.disabledDir.getD []) }

/-- `save_manifest`: serializes the manifest to its path.  (The `mkdir` of the
parent directory is subsumed by the `ensure_directories` call that every
modelled operation performs first.) -/
def save_manifest (manifest : ModManifest) (fs : FS) : FS :=
  { fs with manifestFile := some manifest, manifestWrites := fs.manifestWrites + 1 }

/-- `_iter_mod_files`: regular files with extension `.jar` or `.zip`;
an absent directory yields nothing. -/
def «_iter_mod_files» (dir : Option (List FSFile)) : List FSFile :=
  match dir with
  | none => []
  | some files =>
    files.filter (fun f => pathSuffix f.name == ".jar" || pathSuffix f.name == ".zip")

/-! ## Reconciliation engine -/

structure ModFile where
  filename : String
  path : String
  location : String
  sha256 : Option String := none
deriving DecidableEq

structure ManifestEntryStatus where
  entry : ModEntry
  location : Option String
  present : Bool
  hash_ok : Option Bool
deriving DecidableEq

/-- `ManifestEntryStatus.status`: the classification if-chain. -/
def ManifestEntryStatus.status (s : ManifestEntryStatus) : String :=
  if !s.present then "missing"
  else if s.entry.enabled && s.location != some "mods" then "moved"
  else if !s.entry.enabled && s.location != some "mods-disabled" then "moved"
  else if s.hash_ok == some false then "hash-mismatch"
  else "ok"

structure Inventory where
  entries : List ManifestEntryStatus
  extras : List ModFile
deriving DecidableEq

structure InventorySummary where
  total : Nat
  ok : Nat
  missing : Nat
  moved : Nat
  hash_mismatch : Nat
  extras : Nat
deriving DecidableEq

/-- `Inventory.summary`. -/
def Inventory.summary (inv : Inventory) : InventorySummary :=
  { total := inv.entries.length
    ok := inv.entries.countP (fun e => e.status = "ok")
    missing := inv.entries.countP (fun e => e.status = "missing")
    moved := inv.entries.countP (fun e => e.status = "moved")
    hash_mismatch := inv.entries.countP (fun e => e.status = "hash-mismatch")
    extras := inv.extras.length }

/-- A Python `dict` keyed by filename, in insertion order: updating an
existing key replaces its value in place, a new key is appended. -/
abbrev FileDict := List (String × ModFile)

def dictInsert (d : FileDict) (k : String) (v : ModFile) : FileDict :=
  if d.any (fun p => p.1 == k) then d.map (fun p => if p.1 == k then (k, v) else p)
  else d ++ [(k, v)]

def dictLookup (d : FileDict) (k : String) : Option ModFile :=
  (d.find? (fun p => p.1 == k)).map Prod.snd

/-- `dict.pop(key, None)`: the looked-up value, and the dict without the key. -/
def dictPop (d : FileDict) (k : String) : Option ModFile × FileDict :=
  (dictLookup d k, d.filter (fun p => p.1 != k))

/-- `_scan_files`: the enabled directory is scanned first, then the disabled
directory; a colliding filename is overwritten (last-write-wins). -/
def «_scan_files» (cfg : MscConfig) (manifest : ModManifest) (fs : FS) : FileDict :=
  let mdir := mods_dir_path cfg (some manifest)
  let ddir := disabled_dir_path cfg (some manifest)
  let d1 := («_iter_mod_files» fs.enabledDir).foldl
    (fun d f => dictInsert d f.name
      { filename := f.name, path := joinPath mdir f.name, location := "mods",
        sha256 := some f.sha256 }) []
  («_iter_mod_files» fs.disabledDir).foldl
    (fun d f => dictInsert d f.name
      { filename := f.name, path := joinPath ddir f.name, location := "mods-disabled",
        sha256 := some f.sha256 }) d1

/-- One iteration of `inventory`'s entry loop: build the status for `entry`
from the remaining file map. -/
def entryStatus (entry : ModEntry) (file_info : Option ModFile) : ManifestEntryStatus :=
  { entry := entry
    location := file_info.map (fun f => f.location)
    present := file_info.isSome
    hash_ok :=
      match file_info, entry.hashes with
      | some f, some hh =>
        match hh.sha256 with
        | some exp => if exp.isEmpty then none else some (f.sha256 == some exp)
        | none => none
      | _, _ => none }

/-- The entry loop of `inventory`: pop each entry's filename from the
remaining map and classify. -/
def inventoryLoop : List ModEntry → FileDict → List ManifestEntryStatus × FileDict
  | [], remaining => ([], remaining)
  | entry :: rest, remaining =>
    let popped := dictPop remaining entry.filename
    let tl := inventoryLoop rest popped.2
    (entryStatus entry popped.1 :: tl.1, tl.2)

/-- `inventory`: ensure directories, scan, classify, collect extras.  The
resulting `FS` is the state after the `ensure_directories` call. -/
def inventory (cfg : MscConfig) (manifest : ModManifest) (fs : FS) : Inventory × FS :=
  let fs' := ensure_directories fs
  let files := «_scan_files» cfg manifest fs'
  let r := inventoryLoop manifest.mods files
  ({ entries := r.1, extras := r.2.map Prod.snd }, fs')

/-! ## Manifest operations -/

/-- Mutating `entry.enabled` on the object returned by `ModManifest.find`
updates the first entry with that id in the list. -/
def updateFirstEnabled : List ModEntry → String → Bool → List ModEntry
  | [], _, _ => []
  | e :: es, i, b =>
    if e.id == i then { e with enabled := b } :: es
    else e :: updateFirstEnabled es i b

/-- `shutil.move` of `filename` between the two directories (overwriting any
file of the same name at the destination, as a same-filesystem rename does). -/
def moveModFile (fs : FS) (filename : String) (enabling : Bool) : FS :=
  if enabling then
    match (fs.disabledDir.getD []).find? (fun f => f.name == filename) with
    | some f =>
      { fs with
        disabledDir := some ((fs.disabledDir.getD []).filter (fun g => g.name != filename))
        enabledDir := some (((fs.enabledDir.getD []).filter (fun g => g.name != filename)) ++ [f]) }
    | none => fs
  else
    match (fs.enabledDir.getD []).find? (fun f => f.name == filename) with
    | some f =>
      { fs with
        enabledDir := some ((fs.enabledDir.getD []).filter (fun g => g.name != filename))
        disabledDir := some (((fs.disabledDir.getD []).filter (fun g => g.name != filename)) ++ [f]) }
    | none => fs

/-- `set_enabled`: no-op (and no save) when the entry already has the target
state; otherwise move the file when present, flip the flag, persist. -/
def set_enabled (cfg : MscConfig) (manifest : ModManifest) (fs : FS)
    (mod_id : String) (enabled : Bool) (move_files : Bool) :
    Except String (ModEntry × ModManifest × FS) :=
  let fs := ensure_directories fs
  match manifest.find mod_id with
  | .error e => .error e
  | .ok entry =>
    if entry.enabled == enabled then .ok (entry, manifest, fs)
    else
      let srcFiles := if enabled then fs.disabledDir.getD [] else fs.enabledDir.getD []
      let srcExists := srcFiles.any (fun f => f.name == entry.filename)
      let fs := if move_files && srcExists then moveModFile fs entry.filename enabled else fs
      let entry' := { entry with enabled := enabled }
      let manifest' := { manifest with mods := updateFirstEnabled manifest.mods mod_id enabled }
      .ok (entry', manifest', save_manifest manifest' fs)

/-- `remove_mod`: find the entry, optionally unlink its file from whichever
directories contain it (enabled path checked first), drop the entry, persist. -/
def remove_mod (cfg : MscConfig) (manifest : ModManifest) (fs : FS)
    (mod_id : String) (remove_files : Bool) :
    Except String (ModEntry × List String × ModManifest × FS) :=
  let fs := ensure_directories fs
  match manifest.find mod_id with
  | .error e => .error e
  | .ok entry =>
    let enabledHit := (fs.enabledDir.getD []).any (fun f => f.name == entry.filename)
    let disabledHit := (fs.disabledDir.getD []).any (fun f => f.name == entry.filename)
    let deleted : List String :=
      if remove_files then
        (if enabledHit then [joinPath (mods_dir_path cfg (some manifest)) entry.filename] else [])
          ++ (if disabledHit then [joinPath (disabled_dir_path cfg (some manifest)) entry.filename] else [])
      else []
    let fs :=
      if remove_files then
        { fs with
          enabledDir := some ((fs.enabledDir.getD []).filter (fun f => f.name != entry.filename))
          disabledDir := some ((fs.disabledDir.getD []).filter (fun f => f.name != entry.filename)) }
      else fs
    match manifest.remove mod_id with
    | .error e => .error e
    | .ok manifest' => .ok (entry, deleted, manifest', save_manifest manifest' fs)

/-- The loop of `purge_mods` over the snapshot `list(manifest.mods)`. -/
def purgeLoop (cfg : MscConfig) : List ModEntry → ModManifest → FS → Bool → Nat →
    List String → Except String (Nat × List String × ModManifest × FS)
  | [], manifest, fs, _, count, deleted => .ok (count, deleted, manifest, fs)
  | e :: rest, manifest, fs, remove_files, count, deleted =>
    match remove_mod cfg manifest fs e.id remove_files with
    | .error err => .error err
    | .ok (_, paths, m', fs') =>
      purgeLoop cfg rest m' fs' remove_files (count + 1) (deleted ++ paths)

/-- `purge_mods`: apply `remove_mod` to every entry of the initial snapshot. -/
def purge_mods (cfg : MscConfig) (manifest : ModManifest) (fs : FS)
    (remove_files : Bool) : Except String (Nat × List String × ModManifest × FS) :=
  let fs := ensure_directories fs
  purgeLoop cfg manifest.mods manifest fs remove_files 0 []

/-- The adoption loop of `_adopt_existing_mods`: one entry per mod file in the
enabled directory, duplicate ids silently skipped. -/
def adoptLoop (mdirPath : String) (now : String) :
    List FSFile → ModManifest → List ModEntry → ModManifest × List ModEntry
  | [], manifest, acc => (manifest, acc)
  | f :: rest, manifest, acc =>
    let entry : ModEntry :=
      { id := «_derive_mod_id» f.name
        name := some (pathStem f.name)
        filename := f.name
        enabled := true
        loader := manifest.loader
        mc_version := manifest.minecraft_version
        installed_at := some now
        source := { type := "local", path := some (joinPath mdirPath f.name) }
        hashes := some { sha256 := some f.sha256 } }
    match manifest.add entry with
    | .ok m' => adoptLoop mdirPath now rest m' (acc ++ [entry])
    | .error _ => adoptLoop mdirPath now rest manifest acc

/-- `_adopt_existing_mods`. -/
def «_adopt_existing_mods» (cfg : MscConfig) (manifest : ModManifest) (fs : FS)
    (now : String) : ModManifest × List ModEntry :=
  adoptLoop (mods_dir_path cfg (some manifest)) now
    («_iter_mod_files» fs.enabledDir) manifest []

/-- `init_manifest`: fresh manifest seeded from the configuration, optional
adoption of existing mod files, persisted.  `now` stands for `_now_iso()`. -/
def init_manifest (cfg : MscConfig) (fs : FS) (force adopt_existing : Bool)
    (now : String) : Except String (ModManifest × Nat × FS) :=
  if fs.manifestFile.isSome && !force then
    .error "Mods manifest already exists. Use --force to overwrite."
  else
    let manifest : ModManifest :=
      { schema_version := SUPPORTED_SCHEMA_VERSION
        loader := if cfg.server_type.isEmpty then none else some (strLower cfg.server_type)
        minecraft_version := some cfg.minecraft_version
        mods_dir := DEFAULT_MODS_DIR
        mods := [] }
    let fs := ensure_directories fs
    let r := if adopt_existing then «_adopt_existing_mods» cfg manifest fs now
             else (manifest, [])
    .ok (r.1, r.2.length, save_manifest r.1 fs)

/-! ## Source resolution and `add_mod` -/

/-- `_loader_from_config`. -/
def «_loader_from_config» (cfg : MscConfig) : Option String :=
  if cfg.server_type.isEmpty then none
  else
    let key := strLower (strTrim cfg.server_type)
    let mapping : List (String × String) :=
      [("fabric", "fabric"), ("quilt", "quilt"), ("forge", "forge"),
       ("neoforge", "neoforge"), ("paper", "paper"), ("purpur", "paper"),
       ("spigot", "paper"), ("vanilla", "vanilla")]
    match (mapping.find? (fun p => p.1 == key)).map Prod.snd with
    | some v => some v
    | none => if key.isEmpty then none else some key

/-- `_infer_source_type`.  `local_path_exists` stands for
`Path(source).expanduser().exists()`, a probe of the local filesystem outside
the two managed directories. -/
def «_infer_source_type» (source : String) (local_path_exists : Bool) : String :=
  let lowered := strLower source
  if strStartsWith lowered "modrinth:" || strStartsWith lowered "mr:" then "modrinth"
  else if strStartsWith lowered "curseforge:" || strStartsWith lowered "cf:" then "curseforge"
  else if strStartsWith source "http://" || strStartsWith source "https://" then "url"
  else if local_path_exists then "local"
  else "custom"

/-- `_normalize_source_identifier`: strip a registry scheme, then split an
inline `@version` suffix for the registry types. -/
def «_normalize_source_identifier» (source : String) (source_type : String) :
    String × Option String :=
  let lowered := strLower source
  let schemes : List String :=
    if source_type == "modrinth" then ["modrinth:", "mr:"]
    else if source_type == "curseforge" then ["curseforge:", "cf:"]
    else []
  let target :=
    if schemes.any (fun p => strStartsWith lowered p) then
      String.mk (dropThroughFirst source.toList ':')
    else source
  if (source_type == "modrinth" || source_type == "curseforge")
      && target.toList.contains '@' then
    (String.mk (target.toList.takeWhile (fun c => c != '@')),
     some (String.mk (dropThroughFirst target.toList '@')))
  else (target, none)

/-- `_normalize_version_list` on a list argument. -/
def «_normalize_version_list» (value : List String) : List String :=
  if value.isEmpty then [] else value.filter (fun s => !s.isEmpty)

/-- `_normalize_version_list` on an `Optional[str]` argument. -/
def «_normalize_version_str» (value : Option String) : List String :=
  match value with
  | none => []
  | some s => if s.isEmpty then [] else [s]

/-- `_normalize_version_list(resolved.mc_versions or resolved.mc_version)`:
the list wins when truthy (non-`None`, non-empty), else the single version. -/
def resolved_version_list (mc_versions : Option (List String))
    (mc_version : Option String) : List String :=
  match mc_versions with
  | some l => if !l.isEmpty then «_normalize_version_list» l
              else «_normalize_version_str» mc_version
  | none => «_normalize_version_str» mc_version

/-- `_assert_version_compatibility`: fail on an active loader mismatch, then
on an active mc-version mismatch (the error listing the supported versions). -/
def «_assert_version_compatibility» (mod_identifier : String)
    (resolved_loader : Option String) (resolved_mc_versions : List String)
    (preferred_loader : Option String) (preferred_mc_version : Option String) :
    Except String Unit :=
  if strTruthy preferred_loader && strTruthy resolved_loader
      && strLower (preferred_loader.getD "") != strLower (resolved_loader.getD "") then
    .error (mod_identifier ++ " targets loader '" ++ resolved_loader.getD ""
      ++ "' which does not match the server loader '" ++ preferred_loader.getD "" ++ "'.")
  else if strTruthy preferred_mc_version
      && !resolved_mc_versions.isEmpty
      && !(resolved_mc_versions.map strLower).contains
            (strLower (preferred_mc_version.getD "")) then
    .error (mod_identifier ++ " is tagged for Minecraft "
      ++ String.intercalate ", " resolved_mc_versions
      ++ " but the server is " ++ preferred_mc_version.getD "" ++ ".")
  else .ok ()

/-- `SourceRequest` (the `cfg` and `manifest` fields carried by the source are
the ones in scope at the call site in `add_mod`). -/
structure SourceRequest where
  cfg : MscConfig
  manifest : ModManifest
  source : String
  mods_directory : String
  filename_override : Option String := none
  suggested_mod_id : Option String := none
  suggested_name : Option String := none
  preferred_loader : Option String := none
  preferred_mc_version : Option String := none
  version_hint : Option String := none
  project_id : Option String := none
deriving DecidableEq

structure ResolvedMod where
  filename : String
  source : ModSource
  hashes : Option ModHashes := none
  mod_id : Option String := none
  name : Option String := none
  version : Option String := none
  loader : Option String := none
  mc_version : Option String := none
  mc_versions : Option (List String) := none
deriving DecidableEq

/-- The data the resolver branch of `add_mod` produces (the local variables
`target_filename` … `resolved_mc_version` of the source). -/
structure AddResolution where
  target_filename : Option String
  hashes : Option ModHashes
  mod_source : ModSource
  resolved_name : Option String
  resolved_mod_id : Option String
  resolved_version : Option String
  resolved_loader : Option String
  resolved_mc_version : Option String
deriving DecidableEq

/-- The tail of `add_mod` after the resolver branch: target-filename check,
mod-id choice, duplicate check, entry construction, `manifest.add`,
`save_manifest`. -/
def add_mod_finish (cfg : MscConfig) (fs : FS) (manifest : ModManifest)
    (mod_id : Option String) (name : Option String) (enabled : Bool)
    (preferred_loader preferred_mc_version : Option String) (now : String)
    (r : AddResolution) : Except String (ModEntry × ModManifest × FS) :=
  if !strTruthy r.target_filename then
    .error "Unable to determine target filename for mod."
  else
    let target_filename := r.target_filename.getD ""
    let chosen_mod_id := pyOrS mod_id (pyOrS r.resolved_mod_id («_derive_mod_id» target_filename))
    if manifest.mods.any (fun mod => mod.id == chosen_mod_id) then
      .error ("Mod '" ++ chosen_mod_id ++ "' already exists in manifest.")
    else
      let entry : ModEntry :=
        { id := chosen_mod_id
          name := some (pyOrS name (pyOrS r.resolved_name («_humanize_name» chosen_mod_id)))
          filename := target_filename
          enabled := enabled
          loader := pyOr r.resolved_loader preferred_loader
          mc_version := pyOr r.resolved_mc_version preferred_mc_version
          version := r.resolved_version
          installed_at := some now
          source := r.mod_source
          hashes := r.hashes }
      match manifest.add entry with
      | .error e => .error e
      | .ok manifest' => .ok (entry, manifest', save_manifest manifest' fs)

/-- `add_mod`.  The network/filesystem behaviour of the registered resolver is
abstracted by the `resolve` argument (`resolver.resolve(request)`); the
`custom` type has no registered resolver and always fails.  `resolve`'s side
effect of writing the artifact into the mods directory is outside the managed
state these claims quantify over.  `local_path_exists` feeds
`_infer_source_type`; `now` stands for `_now_iso()`. -/
def add_mod (cfg : MscConfig) (manifest : ModManifest) (fs : FS)
    (resolve : SourceRequest → Except String ResolvedMod)
    (local_path_exists : Bool) (now : String) (source : String)
    (mod_id : Option String) (name : Option String) (enabled : Bool)
    (source_type : Option String) (manifest_only : Bool)
    (filename_override : Option String) (loader_hint : Option String)
    (mc_version_hint : Option String) (version_hint : Option String)
    (project_id : Option String) : Except String (ModEntry × ModManifest × FS) :=
  let fs := ensure_directories fs
  let mods_directory := mods_dir_path cfg (some manifest)
  if manifest_only && !strTruthy filename_override then
    .error "--manifest-only requires --filename to be provided."
  else
  let inferred_source_type :=
    match source_type with
    | none => «_infer_source_type» source local_path_exists
    | some t => t
  if !(["local", "url", "modrinth", "curseforge", "custom"].contains inferred_source_type) then
    .error ("Unsupported source type '" ++ inferred_source_type ++ "'.")
  else
  let ns := «_normalize_source_identifier» source inferred_source_type
  let normalized_source := ns.1
  let version_hint :=
    match version_hint with
    | none => if strTruthy ns.2 then ns.2 else none
    | some v => some v
  let default_loader := pyOr manifest.loader («_loader_from_config» cfg)
  let manifest :=
    if manifest.loader == none && strTruthy default_loader then
      { manifest with loader := default_loader }
    else manifest
  let default_mc_version := pyOr manifest.minecraft_version (some cfg.minecraft_version)
  let manifest :=
    if manifest.minecraft_version == none && !cfg.minecraft_version.isEmpty then
      { manifest with minecraft_version := some cfg.minecraft_version }
    else manifest
  let preferred_loader := pyOr loader_hint default_loader
  let preferred_mc_version := pyOr mc_version_hint default_mc_version
  let resolutionE : Except String AddResolution :=
    if manifest_only then
      .ok { target_filename := filename_override
            hashes := none
            mod_source := { type := inferred_source_type, notes := some "Manifest entry only" }
            resolved_name := none, resolved_mod_id := none, resolved_version := none
            resolved_loader := none, resolved_mc_version := none }
    else if inferred_source_type == "custom" then
      .error "Source type 'custom' is not yet supported."
    else
      match resolve
          { cfg := cfg, manifest := manifest, source := normalized_source
            mods_directory := mods_directory, filename_override := filename_override
            suggested_mod_id := mod_id, suggested_name := name
            preferred_loader := preferred_loader
            preferred_mc_version := preferred_mc_version
            version_hint := version_hint, project_id := project_id } with
      | .error e => .error e
      | .ok resolved =>
        let resolved_versions := resolved_version_list resolved.mc_versions resolved.mc_version
        match «_assert_version_compatibility»
            (pyOrS mod_id (pyOrS resolved.mod_id normalized_source))
            resolved.loader resolved_versions preferred_loader preferred_mc_version with
        | .error e => .error e
        | .ok _ =>
          .ok { target_filename := some resolved.filename
                hashes := resolved.hashes
                mod_source := resolved.source
                resolved_name := resolved.name
                resolved_mod_id := resolved.mod_id
                resolved_version := resolved.version
                resolved_loader := resolved.loader
                resolved_mc_version := resolved.mc_version }
  match resolutionE with
  | .error e => .error e
  | .ok r =>
    add_mod_finish cfg fs manifest mod_id name enabled preferred_loader
      preferred_mc_version now r

/-! ## Sanity checks of the embedding on concrete inputs -/

example : «_derive_mod_id» "Sodium-0.5.jar" = "sodium-0-5" := by decide

example : «_derive_mod_id» "---.jar" = "mod" := by decide

example : pathSuffix "a.jar" = ".jar" ∧ pathStem "a.jar" = "a" ∧ pathSuffix ".hidden" = ""
    ∧ pathSuffix "archive.tar.gz" = ".gz" ∧ pathStem "noext" = "noext" := by decide

example : «_humanize_name» "fabric-api" = "Fabric Api" := by decide

/-! ## Classification (C1 cluster) -/

/-- The entry's location is inconsistent with its `enabled` flag. -/
def wrongLocation (s : ManifestEntryStatus) : Prop :=
  (s.entry.enabled = true ∧ s.location ≠ some "mods") ∨
  (s.entry.enabled = false ∧ s.location ≠ some "mods-disabled")

instance (s : ManifestEntryStatus) : Decidable (wrongLocation s) := by
  unfold wrongLocation; infer_instance

/-- The truthy expected sha256 of an entry (`entry.hashes and entry.hashes.sha256`). -/
def expectedSha (e : ModEntry) : Option String :=
  match e.hashes with
  | some hh =>
    match hh.sha256 with
    | some x => if x.isEmpty then none else some x
    | none => none
  | none => none

theorem status_missing_iff (s : ManifestEntryStatus) :
    s.status = "missing" ↔ s.present = false := by
  unfold ManifestEntryStatus.status
  cases hp : s.present <;> simp
  split <;> [skip; split] <;> [skip; skip; split] <;> decide

theorem status_moved_iff (s : ManifestEntryStatus) :
    s.status = "moved" ↔ s.present = true ∧ wrongLocation s := by
  unfold ManifestEntryStatus.status wrongLocation
  cases hp : s.present <;> cases he : s.entry.enabled <;>
    by_cases hl : s.location = some "mods" <;>
    by_cases hl' : s.location = some "mods-disabled" <;>
    simp [hp, he, hl, hl'] <;> split <;> simp_all

theorem status_hash_iff (s : ManifestEntryStatus) :
    s.status = "hash-mismatch" ↔ s.present = true ∧ ¬wrongLocation s ∧ s.hash_ok = some false := by
  unfold ManifestEntryStatus.status wrongLocation
  cases hp : s.present <;> cases he : s.entry.enabled <;>
    by_cases hl : s.location = some "mods" <;>
    by_cases hl' : s.location = some "mods-disabled" <;>
    by_cases hh : s.hash_ok = some false <;>
    simp [hp, he, hl, hl', hh]

theorem status_ok_iff (s : ManifestEntryStatus) :
    s.status = "ok" ↔ s.present = true ∧ ¬wrongLocation s ∧ s.hash_ok ≠ some false := by
  unfold ManifestEntryStatus.status wrongLocation
  cases hp : s.present <;> cases he : s.entry.enabled <;>
    by_cases hl : s.location = some "mods" <;>
    by_cases hl' : s.location = some "mods-disabled" <;>
    by_cases hh : s.hash_ok = some false <;>
    simp [hp, he, hl, hl', hh]

theorem status_total (s : ManifestEntryStatus) :
    s.status = "missing" ∨ s.status = "moved" ∨ s.status = "hash-mismatch" ∨ s.status = "ok" := by
  unfold ManifestEntryStatus.status
  split <;> [skip; split] <;> [skip; skip; split] <;> [skip; skip; skip; split] <;> simp

/-- Every status produced by the inventory loop is `entryStatus e fi` for its
entry and looked-up file. -/
theorem inventoryLoop_mem (es : List ModEntry) (rem : FileDict)
    (s : ManifestEntryStatus) (hs : s ∈ (inventoryLoop es rem).1) :
    ∃ e fi, s = entryStatus e fi := by
  induction es generalizing rem with
  | nil => simp [inventoryLoop] at hs
  | cons e es ih =>
    simp only [inventoryLoop, List.mem_cons] at hs
    rcases hs with h | h
    · exact ⟨e, _, h⟩
    · exact ih _ h

theorem entryStatus_present (e : ModEntry) (fi : Option ModFile) :
    (entryStatus e fi).present = fi.isSome := rfl

theorem entryStatus_hash (e : ModEntry) (f : ModFile) :
    (entryStatus e (some f)).hash_ok = (expectedSha e).map (fun exp => f.sha256 == some exp) := by
  unfold entryStatus expectedSha
  cases hh : e.hashes with
  | none => rfl
  | some hhv =>
    cases hx : hhv.sha256 with
    | none => simp [hx]
    | some x => by_cases hxe : x.isEmpty <;> simp [hx, hxe]

theorem entryStatus_location (e : ModEntry) (fi : Option ModFile) :
    (entryStatus e fi).location = fi.map (fun f => f.location) := rfl

/-- C1: every manifest entry's inventory classification is exactly one of the
four statuses, in the tie-break order missing > moved > hash-mismatch > ok:
not present in either directory means `"missing"`; otherwise a location
inconsistent with the `enabled` flag means `"moved"` (regardless of the hash);
otherwise a recorded expected sha256 differing from the observed hash means
`"hash-mismatch"`; otherwise `"ok"`. -/
theorem claim_c1 (cfg : MscConfig) (m : ModManifest) (fs : FS)
    (s : ManifestEntryStatus) (hs : s ∈ (inventory cfg m fs).1.entries) :
    (s.status = "missing" ∨ s.status = "moved" ∨ s.status = "hash-mismatch" ∨ s.status = "ok")
    ∧ (s.status = "missing" ↔ s.present = false)
    ∧ (s.status = "moved" ↔ s.present = true ∧ wrongLocation s)
    ∧ (s.status = "hash-mismatch" ↔ s.present = true ∧ ¬ wrongLocation s ∧ s.hash_ok = some false)
    ∧ (s.status = "ok" ↔ s.present = true ∧ ¬ wrongLocation s ∧ s.hash_ok ≠ some false)
    ∧ (s.present = true → ∃ f : ModFile, s.location = some f.location
        ∧ s.hash_ok = (expectedSha s.entry).map (fun exp => f.sha256 == some exp)) := by
  refine ⟨status_total s, status_missing_iff s, status_moved_iff s,
    status_hash_iff s, status_ok_iff s, ?_⟩
  intro hp
  simp only [inventory] at hs
  obtain ⟨e, fi, rfl⟩ := inventoryLoop_mem _ _ s hs
  cases fi with
  | none => simp [entryStatus_present] at hp
  | some f =>
    exact ⟨f, entryStatus_location e (some f), entryStatus_hash e f⟩

def wcfg : MscConfig :=
  { data_dir := "data", server_type := "FABRIC", minecraft_version := "1.21.1",
    api_user_agent := "ua" }

def wentry : ModEntry := { id := "sodium", filename := "sodium.jar" }

def wman : ModManifest := { mods := [wentry] }

def wfs : FS :=
  { enabledDir := some [{ name := "sodium.jar", sha256 := "h1" }], disabledDir := some [] }

def wstatus : ManifestEntryStatus :=
  entryStatus wentry
    (some { filename := "sodium.jar", path := "data/mods/sodium.jar",
            location := "mods", sha256 := some "h1" })

theorem claim_c1_witness :
    wstatus ∈ (inventory wcfg wman wfs).1.entries
    ∧ ((wstatus.status = "missing" ∨ wstatus.status = "moved"
          ∨ wstatus.status = "hash-mismatch" ∨ wstatus.status = "ok")
      ∧ (wstatus.status = "missing" ↔ wstatus.present = false)
      ∧ (wstatus.status = "moved" ↔ wstatus.present = true ∧ wrongLocation wstatus)
      ∧ (wstatus.status = "hash-mismatch" ↔
          wstatus.present = true ∧ ¬ wrongLocation wstatus ∧ wstatus.hash_ok = some false)
      ∧ (wstatus.status = "ok" ↔
          wstatus.present = true ∧ ¬ wrongLocation wstatus ∧ wstatus.hash_ok ≠ some false)
      ∧ (wstatus.present = true → ∃ f : ModFile, wstatus.location = some f.location
          ∧ wstatus.hash_ok = (expectedSha wstatus.entry).map (fun exp => f.sha256 == some exp))) :=
  ⟨by decide, claim_c1 wcfg wman wfs wstatus (by decide)⟩

/-! ## Scan-map lemmas (C2 cluster) -/

theorem find?_replace_ne (d : FileDict) (k k' : String) (v : ModFile) (h : k' ≠ k) :
    (d.map (fun p => if p.1 == k then (k, v) else p)).find? (fun p => p.1 == k')
      = d.find? (fun p => p.1 == k') := by
  induction d with
  | nil => rfl
  | cons p d ih =>
    rw [List.map_cons]
    by_cases hpk : p.1 = k
    · have h1 : ¬(k = k') := fun hh => h hh.symm
      have h2 : ¬(p.1 = k') := by rw [hpk]; exact h1
      rw [if_pos (by simpa using hpk)]
      rw [List.find?_cons_of_neg _ (by simpa using h1)]
      rw [List.find?_cons_of_neg _ (by simpa using h2)]
      exact ih
    · rw [if_neg (by simpa using hpk)]
      by_cases hpk' : p.1 = k'
      · rw [List.find?_cons_of_pos _ (by simpa using hpk'),
          List.find?_cons_of_pos _ (by simpa using hpk')]
      · rw [List.find?_cons_of_neg _ (by simpa using hpk'),
          List.find?_cons_of_neg _ (by simpa using hpk')]
        exact ih

theorem find?_replace_self (d : FileDict) (k : String) (v : ModFile)
    (h : d.any (fun p => p.1 == k) = true) :
    (d.map (fun p => if p.1 == k then (k, v) else p)).find? (fun p => p.1 == k)
      = some (k, v) := by
  induction d with
  | nil => simp at h
  | cons p d ih =>
    rw [List.map_cons]
    by_cases hpk : p.1 = k
    · rw [if_pos (by simpa using hpk)]
      rw [List.find?_cons_of_pos _ (by simp)]
    · rw [if_neg (by simpa using hpk)]
      rw [List.find?_cons_of_neg _ (by simpa using hpk)]
      refine ih ?_
      simp only [List.any_cons, Bool.or_eq_true, beq_iff_eq, hpk, false_or] at h
      simpa using h

theorem dictLookup_insert (d : FileDict) (k k' : String) (v : ModFile) :
    dictLookup (dictInsert d k v) k' = if k' = k then some v else dictLookup d k' := by
  unfold dictInsert dictLookup
  by_cases hany : d.any (fun p => p.1 == k) = true
  · rw [if_pos hany]
    by_cases hk : k' = k
    · subst hk; rw [find?_replace_self d k' v hany, if_pos rfl]; rfl
    · rw [find?_replace_ne d k k' v hk, if_neg hk]
  · rw [if_neg hany]
    have hnone : d.find? (fun p => p.1 == k) = none := by
      rw [List.find?_eq_none]
      intro x hx hc
      exact hany (List.any_eq_true.mpr ⟨x, hx, hc⟩)
    by_cases hk : k' = k
    · subst hk
      simp [List.find?_append, hnone]
    · have h2 : ¬(k = k') := fun hh => hk hh.symm
      simp [List.find?_append, hk, h2]

/-- Looking up `k` after folding `dictInsert` over `files`: the last
occurrence of the name wins, else the starting dict. -/
theorem dictLookup_foldInsert (files : List FSFile) (d : FileDict) (k : String)
    (mk : FSFile → ModFile) :
    dictLookup (files.foldl (fun acc f => dictInsert acc f.name (mk f)) d) k
      = (match files.reverse.find? (fun f => f.name == k) with
        | some f => some (mk f)
        | none => dictLookup d k) := by
  induction files generalizing d with
  | nil => simp
  | cons f fsl ih =>
    simp only [List.foldl_cons, ih, List.reverse_cons, List.find?_append]
    cases hfind : fsl.reverse.find? (fun g => g.name == k) with
    | some g => simp [Option.or]
    | none =>
      simp only [Option.none_or]
      by_cases hfk : f.name = k
      · simp [hfk, dictLookup_insert]
      · have : ¬(k = f.name) := fun hh => hfk hh.symm
        simp [hfk, this, dictLookup_insert]

/-- The `ModFile` record that the enabled-directory scan loop builds. -/
def enabledModFile (cfg : MscConfig) (m : ModManifest) (f : FSFile) : ModFile :=
  { filename := f.name, path := joinPath (mods_dir_path cfg (some m)) f.name,
    location := "mods", sha256 := some f.sha256 }

/-- The `ModFile` record that the disabled-directory scan loop builds. -/
def disabledModFile (cfg : MscConfig) (m : ModManifest) (f : FSFile) : ModFile :=
  { filename := f.name, path := joinPath (disabled_dir_path cfg (some m)) f.name,
    location := "mods-disabled", sha256 := some f.sha256 }

/-- `_scan_files` lookup: the disabled directory shadows the enabled one. -/
theorem scan_lookup (cfg : MscConfig) (m : ModManifest) (fs : FS) (k : String) :
    dictLookup («_scan_files» cfg m fs) k
      = ((((«_iter_mod_files» fs.disabledDir).reverse.find? (fun f => f.name == k)).map
            (disabledModFile cfg m)).or
         ((((«_iter_mod_files» fs.enabledDir).reverse.find? (fun f => f.name == k)).map
            (enabledModFile cfg m)))) := by
  unfold «_scan_files»
  dsimp only
  rw [show (fun (d : FileDict) (f : FSFile) =>
        dictInsert d f.name
          { filename := f.name, path := joinPath (mods_dir_path cfg (some m)) f.name,
            location := "mods", sha256 := some f.sha256 })
      = (fun d f => dictInsert d f.name (enabledModFile cfg m f)) from rfl]
  rw [show (fun (d : FileDict) (f : FSFile) =>
        dictInsert d f.name
          { filename := f.name, path := joinPath (disabled_dir_path cfg (some m)) f.name,
            location := "mods-disabled", sha256 := some f.sha256 })
      = (fun d f => dictInsert d f.name (disabledModFile cfg m f)) from rfl]
  rw [dictLookup_foldInsert]
  cases («_iter_mod_files» fs.disabledDir).reverse.find? (fun f => f.name == k) with
  | some g => rfl
  | none =>
    rw [dictLookup_foldInsert]
    cases («_iter_mod_files» fs.enabledDir).reverse.find? (fun f => f.name == k) with
    | some g => rfl
    | none => rfl

/-- With pairwise-distinct names, `find?` by name returns the member itself. -/
theorem find?_name_unique (l : List FSFile) (x : FSFile) (k : String)
    (hnd : (l.map FSFile.name).Nodup) (hx : x ∈ l) (hk : x.name = k) :
    l.find? (fun f => f.name == k) = some x := by
  induction l with
  | nil => simp at hx
  | cons y l ih =>
    simp only [List.map_cons, List.nodup_cons] at hnd
    rcases List.mem_cons.mp hx with rfl | hxl
    · simp [hk]
    · have hyk : y.name ≠ k := by
        intro hc
        exact hnd.1 (hc ▸ hk ▸ (List.mem_map.mpr ⟨x, hxl, hk.symm ▸ rfl⟩))
      simp [hyk, ih hnd.2 hxl]

/-- C2: when the same filename is a mod file in both directories, the
filename-to-file mapping built by the scan records the disabled-directory
occurrence — location `"mods-disabled"` and that occurrence's content hash —
because the enabled directory is scanned first and the disabled-directory
scan overwrites colliding keys (last-write-wins). -/
theorem claim_c2 (cfg : MscConfig) (m : ModManifest) (fs : FS) (fn : String)
    (f_d : FSFile)
    (hnd : ((«_iter_mod_files» fs.disabledDir).map FSFile.name).Nodup)
    (he : ∃ f_e ∈ «_iter_mod_files» fs.enabledDir, f_e.name = fn)
    (hd : f_d ∈ «_iter_mod_files» fs.disabledDir) (hdn : f_d.name = fn) :
    dictLookup («_scan_files» cfg m fs) fn
      = some { filename := fn, path := joinPath (disabled_dir_path cfg (some m)) fn,
               location := "mods-disabled", sha256 := some f_d.sha256 } := by
  rw [scan_lookup]
  have hrev : («_iter_mod_files» fs.disabledDir).reverse.find? (fun f => f.name == fn)
      = some f_d := by
    refine find?_name_unique _ f_d fn ?_ (List.mem_reverse.mpr hd) hdn
    rw [List.map_reverse]
    exact List.nodup_reverse.mpr hnd
  rw [hrev]
  simp [disabledModFile, hdn]

def wfileE : FSFile := { name := "dup.jar", sha256 := "he" }

def wfileD : FSFile := { name := "dup.jar", sha256 := "hd" }

def wfs2 : FS := { enabledDir := some [wfileE], disabledDir := some [wfileD] }

theorem claim_c2_witness :
    ((«_iter_mod_files» wfs2.disabledDir).map FSFile.name).Nodup
    ∧ (∃ f_e ∈ «_iter_mod_files» wfs2.enabledDir, f_e.name = "dup.jar")
    ∧ wfileD ∈ «_iter_mod_files» wfs2.disabledDir
    ∧ dictLookup («_scan_files» wcfg wman wfs2) "dup.jar"
      = some { filename := "dup.jar",
               path := joinPath (disabled_dir_path wcfg (some wman)) "dup.jar",
               location := "mods-disabled", sha256 := some "hd" } :=
  ⟨by decide, ⟨wfileE, by decide, by decide⟩, by decide,
    claim_c2 wcfg wman wfs2 "dup.jar" wfileD (by decide)
      ⟨wfileE, by decide, by decide⟩ (by decide) (by decide)⟩

/-! ## enable/disable (C7, C8) -/

/-- The manifest after `set_enabled` flips the flag of the found entry. -/
def setEnabledUpdated (m : ModManifest) (mod_id : String) (b : Bool) : ModManifest :=
  { m with mods := updateFirstEnabled m.mods mod_id b }

/-- C7: `enable` on an already-enabled entry (and `disable` on an
already-disabled one) succeeds, moves no file, leaves the manifest unchanged
and does not rewrite the manifest file: the only state change is the
idempotent `ensure_directories`. -/
theorem claim_c7 (cfg : MscConfig) (m : ModManifest) (fs : FS) (mod_id : String)
    (b mv : Bool) (entry : ModEntry)
    (hfind : m.find mod_id = .ok entry) (hb : entry.enabled = b) :
    set_enabled cfg m fs mod_id b mv = .ok (entry, m, ensure_directories fs)
    ∧ (ensure_directories fs).manifestWrites = fs.manifestWrites
    ∧ (ensure_directories fs).manifestFile = fs.manifestFile
    ∧ (ensure_directories fs).enabledDir.getD [] = fs.enabledDir.getD []
    ∧ (ensure_directories fs).disabledDir.getD [] = fs.disabledDir.getD [] := by
  refine ⟨?_, rfl, rfl, by simp [ensure_directories], by simp [ensure_directories]⟩
  unfold set_enabled
  rw [hfind]
  simp [hb]

theorem claim_c7_witness :
    wman.find "sodium" = .ok wentry ∧ wentry.enabled = true
    ∧ (set_enabled wcfg wman wfs "sodium" true true
        = .ok (wentry, wman, ensure_directories wfs)
      ∧ (ensure_directories wfs).manifestWrites = wfs.manifestWrites
      ∧ (ensure_directories wfs).manifestFile = wfs.manifestFile
      ∧ (ensure_directories wfs).enabledDir.getD [] = wfs.enabledDir.getD []
      ∧ (ensure_directories wfs).disabledDir.getD [] = wfs.disabledDir.getD []) :=
  ⟨by decide, by decide,
    claim_c7 wcfg wman wfs "sodium" true true wentry (by decide) (by decide)⟩

/-- C8: enable/disable on an existing entry whose backing file is absent from
the source directory still succeeds: the flag flips, no file list changes, and
the updated manifest is persisted immediately (one manifest-file write). -/
theorem claim_c8 (cfg : MscConfig) (m : ModManifest) (fs : FS) (mod_id : String)
    (b mv : Bool) (entry : ModEntry)
    (hfind : m.find mod_id = .ok entry) (hneb : entry.enabled ≠ b)
    (habs : (if b then fs.disabledDir.getD [] else fs.enabledDir.getD []).any
        (fun f => f.name == entry.filename) = false) :
    set_enabled cfg m fs mod_id b mv
      = .ok ({ entry with enabled := b }, setEnabledUpdated m mod_id b,
             save_manifest (setEnabledUpdated m mod_id b) (ensure_directories fs))
    ∧ (save_manifest (setEnabledUpdated m mod_id b) (ensure_directories fs)).enabledDir.getD []
        = fs.enabledDir.getD []
    ∧ (save_manifest (setEnabledUpdated m mod_id b) (ensure_directories fs)).disabledDir.getD []
        = fs.disabledDir.getD []
    ∧ (save_manifest (setEnabledUpdated m mod_id b) (ensure_directories fs)).manifestWrites
        = fs.manifestWrites + 1
    ∧ (save_manifest (setEnabledUpdated m mod_id b) (ensure_directories fs)).manifestFile
        = some (setEnabledUpdated m mod_id b) := by
  refine ⟨?_, by simp [save_manifest, ensure_directories],
    by simp [save_manifest, ensure_directories], rfl, rfl⟩
  unfold set_enabled
  rw [hfind]
  have hb : (entry.enabled == b) = false := by
    cases hx : entry.enabled <;> cases b <;> simp_all
  have hsrc : ((if b then (ensure_directories fs).disabledDir.getD []
      else (ensure_directories fs).enabledDir.getD []).any
        (fun f => f.name == entry.filename)) = false := by
    cases b <;> simpa [ensure_directories] using habs
  simp [hb, hsrc, setEnabledUpdated]

def wman3 : ModManifest := { mods := [wentry] }

def wfs3 : FS := { enabledDir := some [], disabledDir := some [] }

theorem claim_c8_witness :
    wman3.find "sodium" = .ok wentry ∧ wentry.enabled ≠ false
    ∧ ((if false then wfs3.disabledDir.getD [] else wfs3.enabledDir.getD []).any
        (fun f => f.name == wentry.filename) = false)
    ∧ (set_enabled wcfg wman3 wfs3 "sodium" false true
        = .ok ({ wentry with enabled := false }, setEnabledUpdated wman3 "sodium" false,
               save_manifest (setEnabledUpdated wman3 "sodium" false)
                 (ensure_directories wfs3))
      ∧ (save_manifest (setEnabledUpdated wman3 "sodium" false)
          (ensure_directories wfs3)).enabledDir.getD [] = wfs3.enabledDir.getD []
      ∧ (save_manifest (setEnabledUpdated wman3 "sodium" false)
          (ensure_directories wfs3)).disabledDir.getD [] = wfs3.disabledDir.getD []
      ∧ (save_manifest (setEnabledUpdated wman3 "sodium" false)
          (ensure_directories wfs3)).manifestWrites = wfs3.manifestWrites + 1
      ∧ (save_manifest (setEnabledUpdated wman3 "sodium" false)
          (ensure_directories wfs3)).manifestFile
        = some (setEnabledUpdated wman3 "sodium" false)) :=
  ⟨by decide, by decide, by decide,
    claim_c8 wcfg wman3 wfs3 "sodium" false true wentry (by decide) (by decide) (by decide)⟩

/-! ## Manifest path (C5) and inventory frame (C6) -/

theorem joinPath_inj_mid (d x y fn : String)
    (h : joinPath (joinPath d x) fn = joinPath (joinPath d y) fn) : x = y := by
  have hd : (joinPath (joinPath d x) fn).data = (joinPath (joinPath d y) fn).data := by
    rw [h]
  simp only [joinPath, String.data_append, List.append_assoc] at hd
  have h1 := List.append_cancel_left hd
  have h2 := List.append_cancel_left h1
  have h3 := List.append_cancel_right h2
  exact String.ext h3

def wman5 : ModManifest := { mods_dir := "plugins" }

/-- C5 counterexample: with `mods_dir = "plugins"` the manifest path is *not*
`<dataDir>/<modsDir>/.mscmods.json` — `manifest_path` ignores the manifest's
`mods_dir` and always uses the fixed default `"mods"`. -/
theorem claim_c5_counterexample :
    manifest_path wcfg ≠ joinPath (mods_dir_path wcfg (some wman5)) MANIFEST_FILENAME
    ∧ wman5.mods_dir = "plugins"
    ∧ manifest_path wcfg = "data/mods/.mscmods.json" := by
  refine ⟨?_, rfl, rfl⟩
  decide

/-- C5 (amended): the manifest document's path is always
`<dataDir>/mods/.mscmods.json`, built from the fixed default directory name;
whenever the manifest's `mods_dir` differs from the default, the manifest path
does *not* live under the configured mods directory. -/
theorem claim_c5 (cfg : MscConfig) (m : ModManifest) :
    manifest_path cfg = joinPath (joinPath cfg.data_dir DEFAULT_MODS_DIR) MANIFEST_FILENAME
    ∧ (m.mods_dir ≠ DEFAULT_MODS_DIR →
        manifest_path cfg ≠ joinPath (mods_dir_path cfg (some m)) MANIFEST_FILENAME) := by
  refine ⟨rfl, ?_⟩
  intro hne heq
  exact hne (joinPath_inj_mid cfg.data_dir m.mods_dir DEFAULT_MODS_DIR MANIFEST_FILENAME
    heq.symm)

theorem claim_c5_witness :
    wman5.mods_dir ≠ DEFAULT_MODS_DIR
    ∧ (manifest_path wcfg
        = joinPath (joinPath wcfg.data_dir DEFAULT_MODS_DIR) MANIFEST_FILENAME)
    ∧ manifest_path wcfg ≠ joinPath (mods_dir_path wcfg (some wman5)) MANIFEST_FILENAME :=
  ⟨by decide, (claim_c5 wcfg wman5).1, (claim_c5 wcfg wman5).2 (by decide)⟩

def wfs6 : FS := {}

/-- C6 counterexample: on a state where the two directories do not yet exist,
`inventory` changes the filesystem — its `ensure_directories` call creates
them. -/
theorem claim_c6_counterexample :
    (inventory wcfg wman wfs6).2 ≠ wfs6 ∧ wfs6.enabledDir = none
    ∧ (inventory wcfg wman wfs6).2.enabledDir = some [] := by
  refine ⟨?_, rfl, rfl⟩
  decide

/-- C6 (amended): `inventory` never mutates the manifest document, never
touches any file and never writes the manifest file; its only filesystem
effect is creating the enabled/disabled directories when absent
(`ensure_directories`), so on a state where both directories exist it changes
nothing at all. -/
theorem claim_c6 (cfg : MscConfig) (m : ModManifest) (fs : FS) :
    ((inventory cfg m fs).2.enabledDir = some (fs.enabledDir.getD [])
    ∧ (inventory cfg m fs).2.disabledDir = some (fs.disabledDir.getD [])
    ∧ (inventory cfg m fs).2.manifestFile = fs.manifestFile
    ∧ (inventory cfg m fs).2.manifestWrites = fs.manifestWrites)
    ∧ (fs.enabledDir.isSome → fs.disabledDir.isSome → (inventory cfg m fs).2 = fs) := by
  constructor
  · exact ⟨rfl, rfl, rfl, rfl⟩
  · intro he hd
    obtain ⟨ed, dd, mf, mw⟩ := fs
    cases ed with
    | none => simp at he
    | some a =>
      cases dd with
      | none => simp at hd
      | some c => simp [inventory, ensure_directories]

theorem claim_c6_witness :
    wfs2.enabledDir.isSome ∧ wfs2.disabledDir.isSome
    ∧ ((inventory wcfg wman wfs2).2.enabledDir = some (wfs2.enabledDir.getD [])
      ∧ (inventory wcfg wman wfs2).2.disabledDir = some (wfs2.disabledDir.getD [])
      ∧ (inventory wcfg wman wfs2).2.manifestFile = wfs2.manifestFile
      ∧ (inventory wcfg wman wfs2).2.manifestWrites = wfs2.manifestWrites)
    ∧ (inventory wcfg wman wfs2).2 = wfs2 :=
  ⟨by decide, by decide, (claim_c6 wcfg wman wfs2).1,
    (claim_c6 wcfg wman wfs2).2 (by decide) (by decide)⟩

/-! ## Compatibility check (C4) -/

theorem c4boolA (pl rl : Option String) :
    (strTruthy pl && strTruthy rl
        && (strLower (pl.getD "") != strLower (rl.getD ""))) = true
      ↔ (strTruthy pl = true ∧ strTruthy rl = true
          ∧ strLower (pl.getD "") ≠ strLower (rl.getD "")) := by
  simp [Bool.and_eq_true, and_assoc]

theorem c4boolB (pmv : Option String) (vs : List String) :
    (strTruthy pmv && !vs.isEmpty
        && !((vs.map strLower).contains (strLower (pmv.getD "")))) = true
      ↔ (strTruthy pmv = true ∧ vs ≠ []
          ∧ strLower (pmv.getD "") ∉ vs.map strLower) := by
  simp [Bool.and_eq_true, and_assoc, List.contains]

/-- C4: the compatibility check fails exactly on an active mismatch — both
loaders set and differing case-insensitively, or a preferred mc-version set,
a non-empty resolved version list, and the preferred version not among them
case-insensitively (that error listing the supported versions); and an unset
resolved loader together with an empty resolved version list never raises. -/
theorem claim_c4 (mid : String) (rl : Option String) (vs : List String)
    (pl pmv : Option String) :
    ((∃ e, «_assert_version_compatibility» mid rl vs pl pmv = .error e)
      ↔ ((strTruthy pl = true ∧ strTruthy rl = true
            ∧ strLower (pl.getD "") ≠ strLower (rl.getD ""))
        ∨ (strTruthy pmv = true ∧ vs ≠ []
            ∧ strLower (pmv.getD "") ∉ vs.map strLower)))
    ∧ ((strTruthy pl = true ∧ strTruthy rl = true
          ∧ strLower (pl.getD "") ≠ strLower (rl.getD ""))
        → «_assert_version_compatibility» mid rl vs pl pmv
          = .error (mid ++ " targets loader '" ++ rl.getD ""
              ++ "' which does not match the server loader '" ++ pl.getD "" ++ "'."))
    ∧ (¬(strTruthy pl = true ∧ strTruthy rl = true
          ∧ strLower (pl.getD "") ≠ strLower (rl.getD ""))
        → (strTruthy pmv = true ∧ vs ≠ []
            ∧ strLower (pmv.getD "") ∉ vs.map strLower)
        → «_assert_version_compatibility» mid rl vs pl pmv
          = .error (mid ++ " is tagged for Minecraft " ++ String.intercalate ", " vs
              ++ " but the server is " ++ pmv.getD "" ++ "."))
    ∧ (strTruthy rl = false → vs = []
        → «_assert_version_compatibility» mid rl vs pl pmv = .ok ()) := by
  unfold «_assert_version_compatibility»
  by_cases h1 : (strTruthy pl && strTruthy rl
      && (strLower (pl.getD "") != strLower (rl.getD ""))) = true
  · rw [if_pos h1]
    have hA := (c4boolA pl rl).mp h1
    refine ⟨⟨fun _ => Or.inl hA, fun _ => ⟨_, rfl⟩⟩, fun _ => rfl,
      fun hn _ => absurd hA hn, fun hrlf _ => ?_⟩
    rw [hrlf] at hA
    exact absurd hA.2.1 (by simp)
  · rw [if_neg h1]
    have hnA : ¬(strTruthy pl = true ∧ strTruthy rl = true
        ∧ strLower (pl.getD "") ≠ strLower (rl.getD "")) := fun hc =>
      h1 ((c4boolA pl rl).mpr hc)
    by_cases h2 : (strTruthy pmv && !vs.isEmpty
        && !((vs.map strLower).contains (strLower (pmv.getD "")))) = true
    · rw [if_pos h2]
      have hB := (c4boolB pmv vs).mp h2
      refine ⟨⟨fun _ => Or.inr hB, fun _ => ⟨_, rfl⟩⟩, fun hc => absurd hc hnA,
        fun _ _ => rfl, fun _ hvs => absurd hvs hB.2.1⟩
    · rw [if_neg h2]
      have hnB : ¬(strTruthy pmv = true ∧ vs ≠ []
          ∧ strLower (pmv.getD "") ∉ vs.map strLower) := fun hc =>
        h2 ((c4boolB pmv vs).mpr hc)
      refine ⟨⟨fun ⟨e, he⟩ => absurd he (by simp), fun hc => ?_⟩,
        fun hc => absurd hc hnA, fun _ hc => absurd hc hnB, fun _ _ => rfl⟩
      rcases hc with hc | hc
      · exact absurd hc hnA
      · exact absurd hc hnB

theorem claim_c4_witness :
    ((∃ e, «_assert_version_compatibility» "m" (some "forge") ["1.21", "1.21.1"]
        (some "fabric") (some "1.20") = .error e)
      ↔ ((strTruthy (some "fabric") = true ∧ strTruthy (some "forge") = true
            ∧ strLower ((some "fabric").getD "") ≠ strLower ((some "forge").getD ""))
        ∨ (strTruthy (some "1.20") = true ∧ ["1.21", "1.21.1"] ≠ []
            ∧ (strLower ((some "1.20").getD "")
                ∉ (["1.21", "1.21.1"] : List String).map strLower))))
    ∧ «_assert_version_compatibility» "m" (some "forge") ["1.21", "1.21.1"]
        (some "fabric") (some "1.20")
      = .error ("m" ++ " targets loader '" ++ "forge"
          ++ "' which does not match the server loader '" ++ "fabric" ++ "'.")
    ∧ «_assert_version_compatibility» "m" none ["1.21", "1.21.1"]
        (some "fabric") (some "1.20")
      = .error ("m" ++ " is tagged for Minecraft "
          ++ String.intercalate ", " ["1.21", "1.21.1"]
          ++ " but the server is " ++ "1.20" ++ ".")
    ∧ «_assert_version_compatibility» "m" none [] (some "fabric") (some "1.20") = .ok () :=
  ⟨(claim_c4 "m" (some "forge") ["1.21", "1.21.1"] (some "fabric") (some "1.20")).1,
   (claim_c4 "m" (some "forge") ["1.21", "1.21.1"] (some "fabric") (some "1.20")).2.1
     (by refine ⟨by decide, by decide, ?_⟩; decide),
   (claim_c4 "m" none ["1.21", "1.21.1"] (some "fabric") (some "1.20")).2.2.1
     (by intro hc; exact absurd hc.2.1 (by decide))
     (by refine ⟨by decide, by decide, ?_⟩; decide),
   (claim_c4 "m" none [] (some "fabric") (some "1.20")).2.2.2 (by decide) rfl⟩

/-! ## Inventory bookkeeping (C3, C10 clusters) -/

/-- Keys of a file dict are pairwise distinct. -/
def dictKeysNodup (d : FileDict) : Prop := (d.map Prod.fst).Nodup

theorem dictInsert_mem (d : FileDict) (k : String) (v : ModFile) (kv : String × ModFile)
    (h : kv ∈ dictInsert d k v) : kv ∈ d ∨ kv = (k, v) := by
  unfold dictInsert at h
  by_cases hany : d.any (fun p => p.1 == k) = true
  · rw [if_pos hany] at h
    obtain ⟨p, hp, hpe⟩ := List.mem_map.mp h
    by_cases hpk : p.1 = k
    · right; rw [← hpe]; simp [hpk]
    · left; rw [← hpe, if_neg (by simpa using hpk)]; exact hp
  · rw [if_neg hany] at h
    rcases List.mem_append.mp h with h | h
    · exact Or.inl h
    · exact Or.inr (List.mem_singleton.mp h)

theorem dictInsert_keys (d : FileDict) (k : String) (v : ModFile) :
    (dictInsert d k v).map Prod.fst = d.map Prod.fst
      ∨ (dictInsert d k v).map Prod.fst = d.map Prod.fst ++ [k] := by
  unfold dictInsert
  by_cases hany : d.any (fun p => p.1 == k) = true
  · rw [if_pos hany]
    left
    rw [List.map_map]
    refine List.map_congr_left ?_
    intro p _
    by_cases hpk : p.1 = k <;> simp [hpk]
  · rw [if_neg hany]
    right
    simp

theorem dictInsert_keys_nodup (d : FileDict) (k : String) (v : ModFile)
    (h : dictKeysNodup d) : dictKeysNodup (dictInsert d k v) := by
  unfold dictKeysNodup at h ⊢
  rcases dictInsert_keys d k v with he | he
  · rw [he]; exact h
  · rw [he]
    unfold dictInsert at he
    by_cases hany : d.any (fun p => p.1 == k) = true
    · rw [if_pos hany] at he
      have : (List.map Prod.fst (d.map fun p => if p.1 == k then (k, v) else p)).length
          = (d.map Prod.fst).length := by simp
      rw [he] at this
      simp at this
    · have hk : k ∉ d.map Prod.fst := by
        intro hc
        obtain ⟨p, hp, hpe⟩ := List.mem_map.mp hc
        exact hany (List.any_eq_true.mpr ⟨p, hp, by simp [hpe]⟩)
      simp [List.nodup_append, h, hk]

theorem foldInsert_keys_nodup (files : List FSFile) (d : FileDict)
    (mk : FSFile → ModFile) (h : dictKeysNodup d) :
    dictKeysNodup (files.foldl (fun acc f => dictInsert acc f.name (mk f)) d) := by
  induction files generalizing d with
  | nil => exact h
  | cons f files ih => exact ih _ (dictInsert_keys_nodup d f.name (mk f) h)

theorem foldInsert_mem (files : List FSFile) (d : FileDict) (mk : FSFile → ModFile)
    (kv : String × ModFile)
    (h : kv ∈ files.foldl (fun acc f => dictInsert acc f.name (mk f)) d) :
    kv ∈ d ∨ ∃ f ∈ files, kv = (f.name, mk f) := by
  induction files generalizing d with
  | nil => exact Or.inl h
  | cons f files ih =>
    rcases ih _ h with h' | ⟨g, hg, he⟩
    · rcases dictInsert_mem d f.name (mk f) kv h' with h'' | h''
      · exact Or.inl h''
      · exact Or.inr ⟨f, List.mem_cons_self f files, h''⟩
    · exact Or.inr ⟨g, List.mem_cons_of_mem f hg, he⟩

/-- Every value in the scan map is keyed by its own filename. -/
theorem scan_val_filename (cfg : MscConfig) (m : ModManifest) (fs : FS)
    (kv : String × ModFile) (h : kv ∈ «_scan_files» cfg m fs) : kv.2.filename = kv.1 := by
  unfold «_scan_files» at h
  dsimp only at h
  rcases foldInsert_mem _ _ _ kv h with h' | ⟨f, _, he⟩
  · rcases foldInsert_mem _ _ _ kv h' with h'' | ⟨f, _, he⟩
    · simp at h''
    · rw [he]
  · rw [he]

theorem scan_keys_nodup (cfg : MscConfig) (m : ModManifest) (fs : FS) :
    dictKeysNodup («_scan_files» cfg m fs) := by
  unfold «_scan_files»
  dsimp only
  refine foldInsert_keys_nodup _ _ _ (foldInsert_keys_nodup _ _ _ ?_)
  simp [dictKeysNodup]

/-- `dictLookup d k = none` means no pair of `d` carries key `k`. -/
theorem dictLookup_none_iff (d : FileDict) (k : String) :
    dictLookup d k = none ↔ ∀ kv ∈ d, kv.1 ≠ k := by
  unfold dictLookup
  constructor
  · intro h kv hkv hc
    cases hf : d.find? (fun p => p.1 == k) with
    | some p => rw [hf] at h; simp at h
    | none =>
      have := List.find?_eq_none.mp hf kv hkv
      simp [hc] at this
  · intro h
    have hn : d.find? (fun p => p.1 == k) = none :=
      List.find?_eq_none.mpr (fun x hx => by simpa using h x hx)
    rw [hn]
    rfl

theorem dictLookup_filter_self (d : FileDict) (k : String) :
    dictLookup (d.filter (fun p => p.1 != k)) k = none := by
  rw [dictLookup_none_iff]
  intro kv hkv
  have := (List.mem_filter.mp hkv).2
  simpa using this

theorem dictLookup_filter_ne (d : FileDict) (k k' : String) (h : k' ≠ k) :
    dictLookup (d.filter (fun p => p.1 != k)) k' = dictLookup d k' := by
  unfold dictLookup
  induction d with
  | nil => rfl
  | cons p d ih =>
    by_cases hpk : p.1 = k
    · have hpk' : ¬(p.1 = k') := by rw [hpk]; exact fun hc => h hc.symm
      rw [List.filter_cons_of_neg (by simp [hpk])]
      rw [List.find?_cons_of_neg _ (by simpa using hpk')]
      exact ih
    · rw [List.filter_cons_of_pos (by simpa using hpk)]
      by_cases hpk' : p.1 = k'
      · rw [List.find?_cons_of_pos _ (by simpa using hpk'),
          List.find?_cons_of_pos _ (by simpa using hpk')]
      · rw [List.find?_cons_of_neg _ (by simpa using hpk'),
          List.find?_cons_of_neg _ (by simpa using hpk')]
        exact ih

theorem inventoryLoop_length (es : List ModEntry) (rem : FileDict) :
    (inventoryLoop es rem).1.length = es.length := by
  induction es generalizing rem with
  | nil => rfl
  | cons e es ih => simp [inventoryLoop, ih]

theorem inventoryLoop_rem_subset (es : List ModEntry) (rem : FileDict)
    (kv : String × ModFile) (h : kv ∈ (inventoryLoop es rem).2) : kv ∈ rem := by
  induction es generalizing rem with
  | nil => exact h
  | cons e es ih =>
    simp only [inventoryLoop] at h
    exact (List.mem_filter.mp (ih _ h)).1

theorem inventoryLoop_rem_keeps (es : List ModEntry) (rem : FileDict)
    (kv : String × ModFile) (h : kv ∈ rem) (hno : ∀ e ∈ es, e.filename ≠ kv.1) :
    kv ∈ (inventoryLoop es rem).2 := by
  induction es generalizing rem with
  | nil => exact h
  | cons e es ih =>
    simp only [inventoryLoop]
    refine ih _ (List.mem_filter.mpr ⟨h, ?_⟩) (fun e' he' => hno e' (List.mem_cons_of_mem e he'))
    have := hno e (List.mem_cons_self e es)
    simpa using fun hc => this hc.symm

theorem inventoryLoop_rem_no_match (es : List ModEntry) (rem : FileDict) (k : String)
    (hk : ∃ e ∈ es, e.filename = k) (v : ModFile) :
    (k, v) ∉ (inventoryLoop es rem).2 := by
  induction es generalizing rem with
  | nil => simp at hk
  | cons e es ih =>
    intro hmem
    simp only [inventoryLoop] at hmem
    obtain ⟨e', he', hfn⟩ := hk
    rcases List.mem_cons.mp he' with rfl | he'
    · have hin := inventoryLoop_rem_subset es _ _ hmem
      have := (List.mem_filter.mp hin).2
      simp [hfn] at this
    · exact ih _ ⟨e', he', hfn⟩ hmem

theorem inventoryLoop_rem_keys_nodup (es : List ModEntry) (rem : FileDict)
    (h : dictKeysNodup rem) : dictKeysNodup (inventoryLoop es rem).2 := by
  induction es generalizing rem with
  | nil => exact h
  | cons e es ih =>
    simp only [inventoryLoop]
    refine ih _ ?_
    unfold dictKeysNodup at h ⊢
    exact List.Nodup.sublist (List.Sublist.map _ (List.filter_sublist _)) h

theorem status_count_partition (l : List ManifestEntryStatus) :
    l.countP (fun e => e.status = "ok") + l.countP (fun e => e.status = "missing")
      + l.countP (fun e => e.status = "moved")
      + l.countP (fun e => e.status = "hash-mismatch") = l.length := by
  induction l with
  | nil => rfl
  | cons a l ih =>
    rcases status_total a with h | h | h | h <;>
      simp [List.countP_cons, h] <;> omega

/-- C3 (amended): the four status counts always sum to the number of manifest
entries, and the extras are exactly the scan map's files whose filename no
manifest entry matches — each such filename exactly once, carried with the
directory the scan map recorded for it (on a cross-directory filename
collision only the disabled-directory occurrence, per the scan policy). -/
theorem claim_c3 (cfg : MscConfig) (m : ModManifest) (fs : FS) :
    ((inventory cfg m fs).1.summary.ok + (inventory cfg m fs).1.summary.missing
      + (inventory cfg m fs).1.summary.moved
      + (inventory cfg m fs).1.summary.hash_mismatch = m.mods.length)
    ∧ ((inventory cfg m fs).1.extras.map ModFile.filename).Nodup
    ∧ (∀ f ∈ (inventory cfg m fs).1.extras,
        (f.filename, f) ∈ «_scan_files» cfg m (ensure_directories fs)
        ∧ ∀ e ∈ m.mods, e.filename ≠ f.filename)
    ∧ (∀ k v, (k, v) ∈ «_scan_files» cfg m (ensure_directories fs)
        → (∀ e ∈ m.mods, e.filename ≠ k) → v ∈ (inventory cfg m fs).1.extras) := by
  refine ⟨?_, ?_, ?_, ?_⟩
  · show (inventoryLoop m.mods _).1.countP _ + (inventoryLoop m.mods _).1.countP _
      + (inventoryLoop m.mods _).1.countP _ + (inventoryLoop m.mods _).1.countP _ = _
    rw [status_count_partition, inventoryLoop_length]
  · have hval : ∀ kv ∈ (inventoryLoop m.mods
        («_scan_files» cfg m (ensure_directories fs))).2, kv.2.filename = kv.1 := by
      intro kv hkv
      exact scan_val_filename cfg m (ensure_directories fs) kv
        (inventoryLoop_rem_subset _ _ _ hkv)
    show ((((inventoryLoop m.mods _).2).map Prod.snd).map ModFile.filename).Nodup
    rw [List.map_map]
    have heq : (((inventoryLoop m.mods
          («_scan_files» cfg m (ensure_directories fs))).2).map
        (ModFile.filename ∘ Prod.snd))
        = ((inventoryLoop m.mods («_scan_files» cfg m (ensure_directories fs))).2).map
            Prod.fst :=
      List.map_congr_left (fun kv hkv => hval kv hkv)
    rw [heq]
    exact inventoryLoop_rem_keys_nodup _ _ (scan_keys_nodup cfg m (ensure_directories fs))
  · intro f hf
    obtain ⟨kv, hkv, hsnd⟩ := List.mem_map.mp hf
    have hsub := inventoryLoop_rem_subset _ _ _ hkv
    have hval := scan_val_filename cfg m (ensure_directories fs) kv hsub
    have hkey : kv = (f.filename, f) := by
      obtain ⟨k, v⟩ := kv
      simp only at hsnd hval
      rw [hsnd] at hval ⊢
      rw [← hval]
    constructor
    · rw [← hkey]; exact hsub
    · intro e he hc
      refine inventoryLoop_rem_no_match m.mods
        («_scan_files» cfg m (ensure_directories fs)) f.filename ⟨e, he, hc⟩ f ?_
      rw [← hkey]; exact hkv
  · intro k v hscan hno
    refine List.mem_map.mpr ⟨(k, v), ?_, rfl⟩
    exact inventoryLoop_rem_keeps m.mods _ (k, v) hscan hno

def wmanE : ModManifest := {}

/-- C3 counterexample: with an empty manifest and `dup.jar` present as a mod
file in *both* directories, the enabled-directory copy is a mod file on disk
matched to no manifest entry, yet it appears zero times in extras (the
disabled-directory occurrence shadows it in the scan map); the extras list
holds only the disabled-directory occurrence. -/
theorem claim_c3_counterexample :
    (∃ f ∈ «_iter_mod_files» (ensure_directories wfs2).enabledDir, f.name = "dup.jar")
    ∧ (∀ e ∈ wmanE.mods, e.filename ≠ "dup.jar")
    ∧ ((inventory wcfg wmanE wfs2).1.extras.filter
        (fun f => f.filename == "dup.jar" && f.location == "mods")).length = 0
    ∧ (inventory wcfg wmanE wfs2).1.extras
      = [{ filename := "dup.jar", path := joinPath (disabled_dir_path wcfg (some wmanE))
            "dup.jar", location := "mods-disabled", sha256 := some "hd" }] := by
  refine ⟨⟨wfileE, by decide, by decide⟩, by decide, by decide, by decide⟩

def wdupD : ModFile :=
  { filename := "dup.jar", path := joinPath (disabled_dir_path wcfg (some wmanE)) "dup.jar",
    location := "mods-disabled", sha256 := some "hd" }

theorem claim_c3_witness :
    ((inventory wcfg wmanE wfs2).1.summary.ok + (inventory wcfg wmanE wfs2).1.summary.missing
      + (inventory wcfg wmanE wfs2).1.summary.moved
      + (inventory wcfg wmanE wfs2).1.summary.hash_mismatch = wmanE.mods.length)
    ∧ wdupD ∈ (inventory wcfg wmanE wfs2).1.extras
    ∧ ((wdupD.filename, wdupD) ∈ «_scan_files» wcfg wmanE (ensure_directories wfs2)
        ∧ ∀ e ∈ wmanE.mods, e.filename ≠ wdupD.filename) :=
  ⟨(claim_c3 wcfg wmanE wfs2).1,
   (claim_c3 wcfg wmanE wfs2).2.2.2 "dup.jar" wdupD (by decide) (by decide),
   (claim_c3 wcfg wmanE wfs2).2.2.1 wdupD
     ((claim_c3 wcfg wmanE wfs2).2.2.2 "dup.jar" wdupD (by decide) (by decide))⟩

/-! ## Duplicate filenames in the manifest (C10) -/

theorem inventoryLoop_absent (es : List ModEntry) (rem : FileDict) (fn : String)
    (h : dictLookup rem fn = none) :
    (∀ j e', es.get? j = some e' → e'.filename = fn →
        (inventoryLoop es rem).1.get? j = some (entryStatus e' none))
    ∧ dictLookup (inventoryLoop es rem).2 fn = none := by
  induction es generalizing rem with
  | nil => exact ⟨fun j e' hj => by simp at hj, h⟩
  | cons e es ih =>
    have hrem' : dictLookup (rem.filter (fun p => p.1 != e.filename)) fn = none := by
      by_cases hef : fn = e.filename
      · rw [hef]; exact dictLookup_filter_self rem e.filename
      · rw [dictLookup_filter_ne rem e.filename fn hef]; exact h
    obtain ⟨ihj, ihrem⟩ := ih _ hrem'
    constructor
    · intro j e' hj hfn'
      cases j with
      | zero =>
        rw [List.get?_cons_zero] at hj
        injection hj with hj
        have hfn2 : e.filename = fn := by rw [hj, hfn']
        have hpop : (dictPop rem e.filename).1 = none := by
          unfold dictPop
          dsimp only
          rw [hfn2]
          exact h
        show (entryStatus e (dictPop rem e.filename).1
            :: (inventoryLoop es (dictPop rem e.filename).2).1).get? 0
          = some (entryStatus e' none)
        rw [List.get?_cons_zero, hpop, hj]
      | succ j =>
        simp only [inventoryLoop, List.get?_cons_succ]
        exact ihj j e' hj hfn'
    · simpa [inventoryLoop] using ihrem

theorem inventoryLoop_first (es : List ModEntry) (rem : FileDict) (fn : String)
    (g : ModFile) (hlk : dictLookup rem fn = some g) (hex : ∃ e ∈ es, e.filename = fn) :
    (∃ e, es.get? (es.findIdx (fun x => x.filename == fn)) = some e
      ∧ (inventoryLoop es rem).1.get? (es.findIdx (fun x => x.filename == fn))
          = some (entryStatus e (some g)))
    ∧ (∀ j e', es.get? j = some e' → e'.filename = fn
        → j ≠ es.findIdx (fun x => x.filename == fn)
        → (inventoryLoop es rem).1.get? j = some (entryStatus e' none))
    ∧ dictLookup (inventoryLoop es rem).2 fn = none := by
  induction es generalizing rem with
  | nil => simp at hex
  | cons e es ih =>
    by_cases hef : e.filename = fn
    · have hidx : (e :: es).findIdx (fun x => x.filename == fn) = 0 := by
        simp [List.findIdx_cons, hef]
      have hpop : (dictPop rem e.filename).1 = some g := by
        unfold dictPop; rw [hef]; exact hlk
      have hrem' : dictLookup (rem.filter (fun p => p.1 != e.filename)) fn = none := by
        rw [← hef]
        exact dictLookup_filter_self rem e.filename
      obtain ⟨ihabs, ihrem⟩ := inventoryLoop_absent es _ fn hrem'
      rw [hidx]
      refine ⟨⟨e, rfl, by simp [inventoryLoop, hpop]⟩, ?_, by simpa [inventoryLoop] using ihrem⟩
      intro j e' hj hfn' hjne
      cases j with
      | zero => exact absurd rfl hjne
      | succ j =>
        simp only [inventoryLoop, List.get?_cons_succ] at hj ⊢
        exact ihabs j e' hj hfn'
    · have hefb : (e.filename == fn) = false := by simpa using hef
      have hidx : (e :: es).findIdx (fun x => x.filename == fn)
          = es.findIdx (fun x => x.filename == fn) + 1 := by
        simp [List.findIdx_cons, hefb]
      have hrem' : dictLookup (rem.filter (fun p => p.1 != e.filename)) fn = some g := by
        rw [dictLookup_filter_ne rem e.filename fn (fun hc => hef hc.symm)]
        exact hlk
      have hex' : ∃ x ∈ es, x.filename = fn := by
        obtain ⟨x, hx, hxf⟩ := hex
        rcases List.mem_cons.mp hx with rfl | hx
        · exact absurd hxf hef
        · exact ⟨x, hx, hxf⟩
      obtain ⟨⟨e₀, he₀, hst⟩, ihj, ihrem⟩ := ih _ hrem' hex'
      rw [hidx]
      refine ⟨⟨e₀, by simpa using he₀, by simpa [inventoryLoop] using hst⟩, ?_,
        by simpa [inventoryLoop] using ihrem⟩
      intro j e' hj hfn' hjne
      cases j with
      | zero =>
        rw [List.get?_cons_zero] at hj
        injection hj with hj
        subst hj
        exact absurd hfn' hef
      | succ j =>
        simp only [inventoryLoop, List.get?_cons_succ] at hj ⊢
        exact ihj j e' hj hfn' (fun hc => hjne (by rw [hc]))

theorem find?_of_filter_singleton {α : Type} (p : α → Bool) (l : List α) (u : α)
    (h : l.filter p = [u]) : l.find? p = some u := by
  induction l with
  | nil => simp at h
  | cons a l ih =>
    by_cases hp : p a = true
    · rw [List.filter_cons_of_pos hp] at h
      injection h with h1 h2
      rw [List.find?_cons_of_pos _ hp, h1]
    · rw [List.filter_cons_of_neg (by simpa using hp)] at h
      rw [List.find?_cons_of_neg _ (by simpa using hp)]
      exact ih h

theorem filter_append_singleton {α : Type} (p : α → Bool) (l₁ l₂ : List α) (u : α)
    (h : (l₁ ++ l₂).filter p = [u]) :
    (l₁.filter p = [u] ∧ l₂.filter p = []) ∨ (l₁.filter p = [] ∧ l₂.filter p = [u]) := by
  rw [List.filter_append] at h
  cases h1 : l₁.filter p with
  | nil =>
    rw [h1, List.nil_append] at h
    exact Or.inr ⟨rfl, h⟩
  | cons a t =>
    rw [h1, List.cons_append] at h
    injection h with ha ht
    have := List.append_eq_nil.mp ht
    subst ha
    left
    refine ⟨?_, this.2⟩
    rw [this.1]

theorem scan_lookup_of_unique (cfg : MscConfig) (m : ModManifest) (fs : FS)
    (u : FSFile) (fn : String) (hu : u.name = fn)
    (h1 : ((«_iter_mod_files» fs.enabledDir) ++ («_iter_mod_files» fs.disabledDir)).filter
        (fun f => f.name == fn) = [u]) :
    ∃ g, dictLookup («_scan_files» cfg m fs) fn = some g
      ∧ g.filename = u.name ∧ g.sha256 = some u.sha256 := by
  rcases filter_append_singleton _ _ _ u h1 with ⟨hen, hdnil⟩ | ⟨henil, hd⟩
  · have hdn : («_iter_mod_files» fs.disabledDir).reverse.find? (fun f => f.name == fn)
        = none := by
      rw [List.find?_eq_none]
      intro x hx
      exact List.filter_eq_nil_iff.mp hdnil x (List.mem_reverse.mp hx)
    have hene : («_iter_mod_files» fs.enabledDir).reverse.find? (fun f => f.name == fn)
        = some u := by
      apply find?_of_filter_singleton
      rw [List.filter_reverse, hen]
      rfl
    refine ⟨enabledModFile cfg m u, ?_, rfl, rfl⟩
    rw [scan_lookup, hdn, hene]
    rfl
  · have hde : («_iter_mod_files» fs.disabledDir).reverse.find? (fun f => f.name == fn)
        = some u := by
      apply find?_of_filter_singleton
      rw [List.filter_reverse, hd]
      rfl
    refine ⟨disabledModFile cfg m u, ?_, rfl, rfl⟩
    rw [scan_lookup, hde]
    rfl

/-- C10: when several manifest entries share a filename and exactly one mod
file with that name is on disk, the scan record for that name is matched to
the earliest entry in manifest order (present, with that file's data), every
later entry with the same filename is classified `missing`, and the file is
not reported as an extra. -/
theorem claim_c10 (cfg : MscConfig) (m : ModManifest) (fs : FS) (fn : String) (u : FSFile)
    (h2 : 2 ≤ m.mods.countP (fun e => e.filename == fn))
    (h1 : ((«_iter_mod_files» (ensure_directories fs).enabledDir)
        ++ («_iter_mod_files» (ensure_directories fs).disabledDir)).filter
          (fun f => f.name == fn) = [u]) :
    ∃ g : ModFile,
      dictLookup («_scan_files» cfg m (ensure_directories fs)) fn = some g
      ∧ g.filename = fn ∧ g.sha256 = some u.sha256
      ∧ (∃ e, m.mods.get? (m.mods.findIdx (fun x => x.filename == fn)) = some e
          ∧ (inventory cfg m fs).1.entries.get? (m.mods.findIdx (fun x => x.filename == fn))
            = some (entryStatus e (some g))
          ∧ (entryStatus e (some g)).present = true)
      ∧ (∀ j e', m.mods.get? j = some e' → e'.filename = fn
          → j ≠ m.mods.findIdx (fun x => x.filename == fn)
          → (inventory cfg m fs).1.entries.get? j = some (entryStatus e' none)
            ∧ (entryStatus e' none).status = "missing")
      ∧ (∀ x ∈ (inventory cfg m fs).1.extras, x.filename ≠ fn) := by
  have humem : u ∈ ((«_iter_mod_files» (ensure_directories fs).enabledDir)
      ++ («_iter_mod_files» (ensure_directories fs).disabledDir)).filter
        (fun f => f.name == fn) := by
    rw [h1]
    exact List.mem_singleton_self u
  have hu : u.name = fn := by simpa using List.of_mem_filter humem
  obtain ⟨g, hg, hgf, hgs⟩ :=
    scan_lookup_of_unique cfg m (ensure_directories fs) u fn hu h1
  have hex : ∃ e ∈ m.mods, e.filename = fn := by
    have hpos : 0 < m.mods.countP (fun e => e.filename == fn) :=
      Nat.lt_of_lt_of_le (by norm_num) h2
    obtain ⟨e, he, hpe⟩ := List.countP_pos_iff.mp hpos
    exact ⟨e, he, by simpa using hpe⟩
  obtain ⟨⟨e, he, hst⟩, hmiss, hrem⟩ := inventoryLoop_first m.mods _ fn g hg hex
  refine ⟨g, hg, hgf.trans hu, hgs, ⟨e, he, hst, rfl⟩, ?_, ?_⟩
  · intro j e' hj hfn' hjne
    exact ⟨hmiss j e' hj hfn' hjne, rfl⟩
  · intro x hx hc
    obtain ⟨kv, hkv, hsnd⟩ := List.mem_map.mp hx
    have hsub := inventoryLoop_rem_subset _ _ _ hkv
    have hval := scan_val_filename cfg m (ensure_directories fs) kv hsub
    have hkfn : kv.1 = fn := by rw [← hval, hsnd, hc]
    exact (dictLookup_none_iff _ fn).mp hrem kv hkv hkfn

def w10e1 : ModEntry := { id := "a", filename := "dup.jar" }

def w10e2 : ModEntry := { id := "b", filename := "dup.jar" }

def w10man : ModManifest := { mods := [w10e1, w10e2] }

def w10fs : FS := { enabledDir := some [wfileE], disabledDir := some [] }

theorem claim_c10_witness :
    2 ≤ w10man.mods.countP (fun e => e.filename == "dup.jar")
    ∧ (((«_iter_mod_files» (ensure_directories w10fs).enabledDir)
        ++ («_iter_mod_files» (ensure_directories w10fs).disabledDir)).filter
          (fun f => f.name == "dup.jar") = [wfileE])
    ∧ (∃ g : ModFile,
        dictLookup («_scan_files» wcfg w10man (ensure_directories w10fs)) "dup.jar" = some g
        ∧ g.filename = "dup.jar" ∧ g.sha256 = some wfileE.sha256
        ∧ (∃ e, w10man.mods.get? (w10man.mods.findIdx (fun x => x.filename == "dup.jar"))
              = some e
            ∧ (inventory wcfg w10man w10fs).1.entries.get?
                (w10man.mods.findIdx (fun x => x.filename == "dup.jar"))
              = some (entryStatus e (some g))
            ∧ (entryStatus e (some g)).present = true)
        ∧ (∀ j e', w10man.mods.get? j = some e' → e'.filename = "dup.jar"
            → j ≠ w10man.mods.findIdx (fun x => x.filename == "dup.jar")
            → (inventory wcfg w10man w10fs).1.entries.get? j = some (entryStatus e' none)
              ∧ (entryStatus e' none).status = "missing")
        ∧ (∀ x ∈ (inventory wcfg w10man w10fs).1.extras, x.filename ≠ "dup.jar")) :=
  ⟨by decide, by decide,
    claim_c10 wcfg w10man w10fs "dup.jar" wfileE (by decide) (by decide)⟩

/-! ## Entry-id uniqueness (C9 cluster) -/

/-- The manifest's entry ids are pairwise distinct. -/
def idsNodup (m : ModManifest) : Prop := (m.mods.map ModEntry.id).Nodup

instance (m : ModManifest) : Decidable (idsNodup m) := by
  unfold idsNodup; infer_instance

theorem manifestAdd_ok (m : ModManifest) (e : ModEntry) (m' : ModManifest)
    (h : m.add e = .ok m') : m'.mods = m.mods ++ [e] ∧ e.id ∉ m.mods.map ModEntry.id := by
  unfold ModManifest.add at h
  by_cases hany : m.mods.any (fun mod => mod.id == e.id) = true
  · rw [if_pos hany] at h
    simp at h
  · rw [if_neg hany] at h
    injection h with h
    constructor
    · rw [← h]
    · intro hc
      obtain ⟨x, hx, hxe⟩ := List.mem_map.mp hc
      exact hany (List.any_eq_true.mpr ⟨x, hx, by simp [hxe]⟩)

theorem manifestAdd_dup (m : ModManifest) (e : ModEntry)
    (h : e.id ∈ m.mods.map ModEntry.id) : ∃ msg, m.add e = .error msg := by
  unfold ModManifest.add
  obtain ⟨x, hx, hxe⟩ := List.mem_map.mp h
  rw [if_pos (List.any_eq_true.mpr ⟨x, hx, by simp [hxe]⟩)]
  exact ⟨_, rfl⟩

theorem manifestAdd_nodup (m : ModManifest) (e : ModEntry) (m' : ModManifest)
    (hn : idsNodup m) (h : m.add e = .ok m') : idsNodup m' := by
  obtain ⟨hm, hni⟩ := manifestAdd_ok m e m' h
  unfold idsNodup at hn ⊢
  rw [hm, List.map_append]
  simp [List.nodup_append, hn, hni]

theorem adoptLoop_nodup (mdir now : String) (files : List FSFile) :
    ∀ (m : ModManifest) (acc : List ModEntry), idsNodup m →
      idsNodup (adoptLoop mdir now files m acc).1 := by
  induction files with
  | nil => intro m acc h; exact h
  | cons f files ih =>
    intro m acc h
    simp only [adoptLoop]
    cases hadd : m.add
        { id := «_derive_mod_id» f.name, name := some (pathStem f.name),
          filename := f.name, enabled := true, loader := m.loader,
          mc_version := m.minecraft_version, installed_at := some now,
          source := { type := "local", path := some (joinPath mdir f.name) },
          hashes := some { sha256 := some f.sha256 } } with
    | ok m' => exact ih m' _ (manifestAdd_nodup m _ m' h hadd)
    | error msg => exact ih m acc h

theorem init_manifest_nodup (cfg : MscConfig) (fs : FS) (force adopt : Bool)
    (now : String) (m' : ModManifest) (n : Nat) (fs' : FS)
    (h : init_manifest cfg fs force adopt now = .ok (m', n, fs')) : idsNodup m' := by
  unfold init_manifest at h
  by_cases hex : (fs.manifestFile.isSome && !force) = true
  · rw [if_pos hex] at h; simp at h
  · rw [if_neg hex] at h
    injection h with h
    have hbase : idsNodup
        { schema_version := SUPPORTED_SCHEMA_VERSION,
          loader := if cfg.server_type.isEmpty then none else some (strLower cfg.server_type),
          minecraft_version := some cfg.minecraft_version,
          mods_dir := DEFAULT_MODS_DIR, mods := [] } := by
      simp [idsNodup]
    have h1 := congrArg Prod.fst h
    by_cases ha : adopt = true
    · rw [ha] at h1
      simp only [if_true] at h1
      rw [← h1]
      exact adoptLoop_nodup _ now _ _ [] hbase
    · have ha' : adopt = false := by
        cases adopt
        · rfl
        · exact absurd rfl ha
      rw [ha'] at h1
      simp only [Bool.false_eq_true, if_false] at h1
      rw [← h1]
      exact hbase

theorem updateFirstEnabled_ids (l : List ModEntry) (i : String) (b : Bool) :
    (updateFirstEnabled l i b).map ModEntry.id = l.map ModEntry.id := by
  induction l with
  | nil => rfl
  | cons e l ih =>
    unfold updateFirstEnabled
    by_cases he : e.id = i
    · simp [he]
    · have heb : (e.id == i) = false := by simpa using he
      simp [heb, ih]

theorem set_enabled_ids (cfg : MscConfig) (m : ModManifest) (fs : FS) (i : String)
    (b mv : Bool) (e : ModEntry) (m' : ModManifest) (fs' : FS)
    (h : set_enabled cfg m fs i b mv = .ok (e, m', fs')) :
    m'.mods.map ModEntry.id = m.mods.map ModEntry.id := by
  unfold set_enabled at h
  cases hf : m.find i with
  | error msg => rw [hf] at h; simp at h
  | ok entry =>
    rw [hf] at h
    dsimp only at h
    by_cases hb : (entry.enabled == b) = true
    · rw [if_pos hb] at h
      injection h with h
      have h1 : m = m' := congrArg (fun p => p.2.1) h
      rw [← h1]
    · rw [if_neg hb] at h
      injection h with h
      have h1 := congrArg (fun (p : ModEntry × ModManifest × FS) => p.2.1) h
      dsimp only at h1
      rw [← h1]
      exact updateFirstEnabled_ids m.mods i b

theorem remove_mod_mods (cfg : MscConfig) (m : ModManifest) (fs : FS) (i : String)
    (rf : Bool) (e : ModEntry) (del : List String) (m' : ModManifest) (fs' : FS)
    (h : remove_mod cfg m fs i rf = .ok (e, del, m', fs')) :
    m'.mods = m.mods.filter (fun mod => mod.id != i) := by
  unfold remove_mod at h
  cases hf : m.find i with
  | error msg => rw [hf] at h; simp at h
  | ok entry =>
    rw [hf] at h
    cases hr : ModManifest.remove m i with
    | error msg =>
      rw [hr] at h
      simp at h
    | ok m₂ =>
      rw [hr] at h
      injection h with h
      have h1 : m₂ = m' := congrArg (fun p => p.2.2.1) h
      unfold ModManifest.remove at hr
      by_cases hlen : ((m.mods.filter (fun mod => mod.id != i)).length == m.mods.length) = true
      · rw [if_pos hlen] at hr; simp at hr
      · rw [if_neg hlen] at hr
        injection hr with hr
        rw [← h1, ← hr]

theorem remove_mod_nodup (cfg : MscConfig) (m : ModManifest) (fs : FS) (i : String)
    (rf : Bool) (e : ModEntry) (del : List String) (m' : ModManifest) (fs' : FS)
    (hn : idsNodup m) (h : remove_mod cfg m fs i rf = .ok (e, del, m', fs')) :
    idsNodup m' := by
  unfold idsNodup at hn ⊢
  rw [remove_mod_mods cfg m fs i rf e del m' fs' h]
  exact List.Nodup.sublist (List.Sublist.map _ (List.filter_sublist _)) hn

theorem purgeLoop_nodup (cfg : MscConfig) (es : List ModEntry) :
    ∀ (m : ModManifest) (fs : FS) (rf : Bool) (c : Nat) (del : List String)
      (out : Nat × List String × ModManifest × FS),
      idsNodup m → purgeLoop cfg es m fs rf c del = .ok out → idsNodup out.2.2.1 := by
  induction es with
  | nil =>
    intro m fs rf c del out hn h
    simp only [purgeLoop] at h
    injection h with h
    rw [← congrArg (fun p => p.2.2.1) h]
    exact hn
  | cons e es ih =>
    intro m fs rf c del out hn h
    simp only [purgeLoop] at h
    cases hr : remove_mod cfg m fs e.id rf with
    | error msg => rw [hr] at h; simp at h
    | ok r =>
      rw [hr] at h
      obtain ⟨e', del', m₂, fs₂⟩ := r
      exact ih m₂ fs₂ rf (c + 1) (del ++ del') out
        (remove_mod_nodup cfg m fs e.id rf e' del' m₂ fs₂ hn hr) h

theorem pyOrS_some (i : String) (hne : ¬i.isEmpty = true) (x : String) :
    pyOrS (some i) x = i := by
  simp [pyOrS, strTruthy, hne]

theorem add_mod_finish_ok (cfg : MscConfig) (fs : FS) (manifest : ModManifest)
    (mod_id mname : Option String) (enabled : Bool) (pl pmc : Option String)
    (now : String) (r : AddResolution) (e : ModEntry) (m' : ModManifest) (fs' : FS)
    (h : add_mod_finish cfg fs manifest mod_id mname enabled pl pmc now r
        = .ok (e, m', fs')) :
    m'.mods = manifest.mods ++ [e] ∧ e.id ∉ manifest.mods.map ModEntry.id
    ∧ (∀ i, mod_id = some i → ¬i.isEmpty → e.id = i) := by
  simp only [add_mod_finish] at h
  split at h
  · simp at h
  split at h
  · simp at h
  split at h
  · simp at h
  next manifest' heq =>
    injection h with h
    have hE := congrArg (fun (p : ModEntry × ModManifest × FS) => p.1) h
    have hM := congrArg (fun (p : ModEntry × ModManifest × FS) => p.2.1) h
    dsimp only at hE hM
    obtain ⟨hmods, hnotin⟩ := manifestAdd_ok _ _ _ heq
    refine ⟨?_, ?_, ?_⟩
    · rw [← hM, hmods, ← hE]
    · rw [← hE]
      exact hnotin
    · intro i hi hne
      rw [← hE]
      simp only [hi, pyOrS_some i hne]

theorem add_mod_ok (cfg : MscConfig) (m : ModManifest) (fs : FS)
    (resolve : SourceRequest → Except String ResolvedMod) (lpe : Bool) (now source : String)
    (mod_id mname : Option String) (enabled : Bool) (source_type : Option String)
    (manifest_only : Bool)
    (filename_override loader_hint mc_version_hint version_hint project_id : Option String)
    (e : ModEntry) (m' : ModManifest) (fs' : FS)
    (h : add_mod cfg m fs resolve lpe now source mod_id mname enabled source_type
        manifest_only filename_override loader_hint mc_version_hint version_hint
        project_id = .ok (e, m', fs')) :
    m'.mods = m.mods ++ [e] ∧ e.id ∉ m.mods.map ModEntry.id
    ∧ (∀ i, mod_id = some i → ¬i.isEmpty → e.id = i) := by
  simp only [add_mod] at h
  repeat' split at h
  all_goals
    first
    | exact Except.noConfusion h
    | (obtain ⟨h1, h2, h3⟩ := add_mod_finish_ok _ _ _ _ _ _ _ _ _ _ _ _ _ h
       exact ⟨by rw [h1], h2, h3⟩)

/-- C9: entry-id uniqueness is an invariant — `ModManifest.add` preserves it
and hard-fails on a duplicate id; `init` (with or without adoption), `add`,
`enable`/`disable`, `remove` and `purge` all map a manifest with pairwise
distinct ids to a manifest with pairwise distinct ids; and `add_mod` on an id
that already exists never succeeds. -/
theorem claim_c9 :
    (∀ (m : ModManifest) (e : ModEntry) (m' : ModManifest),
        idsNodup m → m.add e = .ok m' → idsNodup m')
    ∧ (∀ (m : ModManifest) (e : ModEntry),
        e.id ∈ m.mods.map ModEntry.id → ∃ msg, m.add e = .error msg)
    ∧ (∀ (cfg : MscConfig) (fs : FS) (force adopt : Bool) (now : String)
        (m' : ModManifest) (n : Nat) (fs' : FS),
        init_manifest cfg fs force adopt now = .ok (m', n, fs') → idsNodup m')
    ∧ (∀ (cfg : MscConfig) (m : ModManifest) (fs : FS)
        (resolve : SourceRequest → Except String ResolvedMod) (lpe : Bool)
        (now source : String) (mod_id mname : Option String) (enabled : Bool)
        (st : Option String) (mo : Bool) (fo lh mh vh pid : Option String)
        (e : ModEntry) (m' : ModManifest) (fs' : FS),
        idsNodup m
        → add_mod cfg m fs resolve lpe now source mod_id mname enabled st mo fo lh mh vh pid
            = .ok (e, m', fs')
        → idsNodup m')
    ∧ (∀ (cfg : MscConfig) (m : ModManifest) (fs : FS)
        (resolve : SourceRequest → Except String ResolvedMod) (lpe : Bool)
        (now source : String) (i : String) (mname : Option String) (enabled : Bool)
        (st : Option String) (mo : Bool) (fo lh mh vh pid : Option String),
        ¬i.isEmpty
        → i ∈ m.mods.map ModEntry.id
        → ∀ out, add_mod cfg m fs resolve lpe now source (some i) mname enabled st mo
            fo lh mh vh pid ≠ .ok out)
    ∧ (∀ (cfg : MscConfig) (m : ModManifest) (fs : FS) (i : String) (b mv : Bool)
        (e : ModEntry) (m' : ModManifest) (fs' : FS),
        idsNodup m → set_enabled cfg m fs i b mv = .ok (e, m', fs') → idsNodup m')
    ∧ (∀ (cfg : MscConfig) (m : ModManifest) (fs : FS) (i : String) (rf : Bool)
        (e : ModEntry) (del : List String) (m' : ModManifest) (fs' : FS),
        idsNodup m → remove_mod cfg m fs i rf = .ok (e, del, m', fs') → idsNodup m')
    ∧ (∀ (cfg : MscConfig) (m : ModManifest) (fs : FS) (rf : Bool) (c : Nat)
        (del : List String) (m' : ModManifest) (fs' : FS),
        idsNodup m → purge_mods cfg m fs rf = .ok (c, del, m', fs') → idsNodup m') := by
  refine ⟨manifestAdd_nodup, manifestAdd_dup, init_manifest_nodup, ?_, ?_, ?_, ?_, ?_⟩
  · intro cfg m fs resolve lpe now source mod_id mname enabled st mo fo lh mh vh pid
      e m' fs' hn hok
    obtain ⟨h1, h2, _⟩ := add_mod_ok cfg m fs resolve lpe now source mod_id mname enabled
      st mo fo lh mh vh pid e m' fs' hok
    unfold idsNodup at hn ⊢
    rw [h1, List.map_append]
    simp [List.nodup_append, hn, h2]
  · intro cfg m fs resolve lpe now source i mname enabled st mo fo lh mh vh pid
      hne hidup out hok
    obtain ⟨e, m', fs'⟩ := out
    obtain ⟨_, h2, h3⟩ := add_mod_ok cfg m fs resolve lpe now source (some i) mname
      enabled st mo fo lh mh vh pid e m' fs' hok
    rw [h3 i rfl hne] at h2
    exact h2 hidup
  · intro cfg m fs i b mv e m' fs' hn hok
    unfold idsNodup at hn ⊢
    rw [set_enabled_ids cfg m fs i b mv e m' fs' hok]
    exact hn
  · exact fun cfg m fs i rf e del m' fs' hn hok =>
      remove_mod_nodup cfg m fs i rf e del m' fs' hn hok
  · intro cfg m fs rf c del m' fs' hn hok
    exact purgeLoop_nodup cfg m.mods m (ensure_directories fs) rf 0 [] (c, del, m', fs')
      hn hok

def w9mA : ModManifest := { mods := [wentry, w10e2] }

def w9init : ModManifest := { loader := some "fabric", minecraft_version := some "1.21.1" }

def w9fsP : FS :=
  { enabledDir := some [], disabledDir := some [], manifestFile := some wmanE,
    manifestWrites := 1 }

theorem claim_c9_witness :
    (idsNodup wman3 ∧ wman3.add w10e2 = .ok w9mA ∧ idsNodup w9mA)
    ∧ ("sodium" ∈ wman3.mods.map ModEntry.id ∧ ∃ msg, wman3.add wentry = .error msg)
    ∧ (init_manifest wcfg wfs3 false true "t"
        = .ok (w9init, 0, save_manifest w9init (ensure_directories wfs3))
      ∧ idsNodup w9init)
    ∧ (∀ out, add_mod wcfg wman3 wfs3 (fun _ => .error "offline") false "t" "src"
        (some "sodium") none true (some "custom") true (some "dup.jar") none none none none
        ≠ .ok out)
    ∧ (purge_mods wcfg wman3 wfs3 true = .ok (1, [], wmanE, w9fsP) ∧ idsNodup wmanE) :=
  ⟨⟨by decide, by decide, claim_c9.1 wman3 w10e2 w9mA (by decide) (by decide)⟩,
   ⟨by decide, claim_c9.2.1 wman3 wentry (by decide)⟩,
   ⟨by decide, claim_c9.2.2.1 wcfg wfs3 false true "t" w9init 0
      (save_manifest w9init (ensure_directories wfs3)) (by decide)⟩,
   claim_c9.2.2.2.2.1 wcfg wman3 wfs3 (fun _ => .error "offline") false "t" "src"
     "sodium" none true (some "custom") true (some "dup.jar") none none none none
     (by decide) (by decide),
   ⟨by decide, claim_c9.2.2.2.2.2.2.2 wcfg wman3 wfs3 true 1 [] wmanE w9fsP
      (by decide) (by decide)⟩⟩

end Msc
